import Mathlib

/-!
Shallow embedding of `src/core/network_scanner.py` (class `NetworkScanner`)
for a verification of the scanning-engine specification.

Modelling conventions:
* Python floats (timestamps, response times, random draws) are embedded as `ℚ`.
* IPv4 addresses are embedded as their numeric value (`ℕ`, `< 2^32`); the
  CPython `ipaddress` library calls made by the source are modelled for the
  IPv4 dotted-quad forms the scanner handles.  IPv6 literals are outside this
  embedding and behave as parse failures.
* Nondeterministic effects (random draws, socket outcomes, the shared stop
  flag, wall-clock readings) are supplied by an `Oracle`, indexed by a tick
  counter threaded through the computation; theorems quantify over all
  oracles, covering every schedule and probe outcome.
* Exceptions are modelled explicitly: a caught exception becomes a value
  (an `Option`/flag) handled exactly where the source `except` clause sits.
-/

/-! ### IPv4 addresses

Model of the slice of CPython `ipaddress` used by `_parse_ip_ranges`:
`ip_address` on dotted-quad strings, address arithmetic/comparison,
`ip_network(·, strict=False).hosts()`, and `str()` of an address. -/

/-- Largest IPv4 address value (`255.255.255.255`). -/
def ipMax : ℕ := 2 ^ 32 - 1

/-- Python `c in s` on the characters of a string. -/
def pyContains (cs : List Char) (c : Char) : Bool :=
  cs.any (· = c)

/-- Python `str.split(sep)` for a one-character separator (no maxsplit). -/
def pySplitOn (sep : Char) : List Char → List (List Char)
  | [] => [[]]
  | c :: rest =>
    if c = sep then [] :: pySplitOn sep rest
    else
      match pySplitOn sep rest with
      | g :: gs => (c :: g) :: gs
      | [] => [[c]]

/-- Python `str.strip()` (whitespace removal at both ends). -/
def pyStrip (cs : List Char) : List Char :=
  ((cs.dropWhile Char.isWhitespace).reverse.dropWhile Char.isWhitespace).reverse

/-- Decimal reading of an all-digits, non-empty character run. -/
def digitsToNat (cs : List Char) : Option ℕ :=
  if cs ≠ [] ∧ cs.all Char.isDigit then
    some (cs.foldl (fun n c => n * 10 + (c.toNat - 48)) 0)
  else none

/-- One dotted-quad octet, as accepted by `ipaddress.ip_address`: decimal
digits only, at most three of them, value at most 255, and no leading zero. -/
def parseOctet (cs : List Char) : Option ℕ :=
  match digitsToNat cs with
  | none => none
  | some n =>
    if 3 < cs.length then none
    else if 1 < cs.length ∧ cs.headD ' ' = '0' then none
    else if 255 < n then none
    else some n

/-- `ipaddress.ip_address` on an IPv4 dotted-quad literal, as the numeric
address value. -/
def parseIPv4 (cs : List Char) : Option ℕ :=
  match pySplitOn '.' cs with
  | [a, b, c, d] =>
    match parseOctet a, parseOctet b, parseOctet c, parseOctet d with
    | some a, some b, some c, some d => some (((a * 256 + b) * 256 + c) * 256 + d)
    | _, _, _, _ => none
  | _ => none

/-- `str()` of an IPv4 address value. -/
def ipToString (v : ℕ) : String :=
  toString (v / 2 ^ 24 % 256) ++ "." ++ toString (v / 2 ^ 16 % 256) ++ "."
    ++ toString (v / 2 ^ 8 % 256) ++ "." ++ toString (v % 256)

/-- The `while current <= end` loop of the range branch of
`_parse_ip_ranges`: appends each address from `s` up to `e` inclusive.  The
returned flag records the one way the loop can raise: incrementing past
`255.255.255.255` raises `AddressValueError` after the last append (the
addresses appended so far are kept, the exception is handled by the caller). -/
def range_expand_go (s : ℕ) : ℕ → List ℕ × Bool
  | 0 => ([], false)
  | n + 1 =>
    if s = ipMax then ([ipMax], true)
    else
      let r := range_expand_go (s + 1) n
      (s :: r.1, r.2)

/-- Entry point of the loop: the loop runs `e + 1 - s` iterations (none when
`e < s`, matching `current <= end` failing immediately). -/
def range_expand (s e : ℕ) : List ℕ × Bool :=
  range_expand_go s (e + 1 - s)

/-- `ipaddress.ip_network(spec, strict=False)` for an IPv4 CIDR literal with
an explicit decimal prefix length: returns the masked network value and the
prefix length. -/
def parseCIDR (cs : List Char) : Option (ℕ × ℕ) :=
  match pySplitOn '/' cs with
  | [addr, pfx] =>
    match parseIPv4 addr, digitsToNat pfx with
    | some v, some p =>
      if 32 < p then none
      else if 1 < pfx.length ∧ pfx.headD ' ' = '0' then none
      else some (v / 2 ^ (32 - p) * 2 ^ (32 - p), p)
    | _, _ => none
  | _ => none

/-- `IPv4Network.hosts()`: all usable host addresses of the block.  For
prefixes up to /30 the network and broadcast addresses are excluded; for /31
and /32 every address of the block is included. -/
def cidr_hosts (net p : ℕ) : List ℕ :=
  if 31 ≤ p then (List.range (2 ^ (32 - p))).map (net + ·)
  else (List.range (2 ^ (32 - p) - 2)).map (net + 1 + ·)

/-! ### Events

The four callback channels of the scanner, recorded as a trace.  Emitting an
event models the engine invoking the corresponding registered callback
(`_emit_host_found`, `_emit_progress_update`, `_emit_scan_complete`,
`_emit_error`); exceptions raised inside a caller-supplied callback are caught
and logged by the source and do not affect the engine state. -/

/-- Information about one scanned host (`HostInfo` dataclass). -/
structure HostInfo where
  ip : String
  hostname : Option String := none
  is_alive : Bool := false
  open_ports : List ℕ := []
  response_time : Option ℚ := none
  last_seen : ℚ := 0
deriving DecidableEq, Repr

/-- Scan progress snapshot (`ScanProgress` dataclass). -/
structure ScanProgress where
  hosts_total : ℕ := 0
  hosts_scanned : ℕ := 0
  ports_total : ℕ := 0
  ports_scanned : ℕ := 0
  hosts_found : ℕ := 0
  open_ports_found : ℕ := 0
  current_target : String := ""
  is_running : Bool := false
  elapsed_time : ℚ := 0
  estimated_remaining : ℚ := 0
deriving DecidableEq, Repr

/-- One emitted callback invocation. -/
inductive Event where
  | hostFound (h : HostInfo)
  | progressUpdate (p : ScanProgress)
  | scanComplete
  | error (msg : String)
deriving DecidableEq, Repr

/-- One iteration of the `for ip_range in ip_ranges` loop of
`_parse_ip_ranges`: the targets contributed by one spec together with the
error events emitted for it.  The branch order matches the source: a spec
containing a slash is treated as CIDR, otherwise one containing a dash as a
range, otherwise as a single address.  The error message of the source embeds
the exception text; the model keeps the fixed prefix and the spec. -/
def expand_spec (spec : String) : List String × List Event :=
  if pyContains spec.data '/' then
    match parseCIDR spec.data with
    | some (net, p) => ((cidr_hosts net p).map ipToString, [])
    | none => ([], [Event.error ("Błędny zakres IP: " ++ spec)])
  else if pyContains spec.data '-' then
    match pySplitOn '-' spec.data with
    | x :: rest =>
      match parseIPv4 (pyStrip x), parseIPv4 (pyStrip (List.intercalate ['-'] rest)) with
      | some s, some e =>
        let r := range_expand s e
        (r.1.map ipToString, if r.2 then [Event.error ("Błędny zakres IP: " ++ spec)] else [])
      | _, _ => ([], [Event.error ("Błędny zakres IP: " ++ spec)])
    | [] => ([], [Event.error ("Błędny zakres IP: " ++ spec)])
  else
    match parseIPv4 (pyStrip spec.data) with
    | some v => ([ipToString v], [])
    | none => ([], [Event.error ("Błędny zakres IP: " ++ spec)])

/-- `NetworkScanner._parse_ip_ranges`: expands every spec in input order into
one shared target list, reporting malformed specs through the error event and
continuing with the remaining specs. -/
def parse_ip_ranges (ranges : List String) : List String × List Event :=
  ranges.foldl
    (fun acc r =>
      let er := expand_spec r
      (acc.1 ++ er.1, acc.2 ++ er.2))
    ([], [])

/-! ### Facts about target expansion -/

/-- Folding expansion over specs appends each expansion to the accumulator. -/
lemma parse_ip_ranges_go (ranges : List String) (acc : List String × List Event) :
    ranges.foldl
      (fun acc r =>
        let er := expand_spec r
        (acc.1 ++ er.1, acc.2 ++ er.2))
      acc
    = (acc.1 ++ ranges.flatMap (fun s => (expand_spec s).1),
       acc.2 ++ ranges.flatMap (fun s => (expand_spec s).2)) := by
  induction ranges generalizing acc with
  | nil => simp
  | cons r rest ih =>
    simp only [List.foldl_cons, List.flatMap_cons, ih]
    simp [List.append_assoc]

/-- Expansion processes specs in input order, concatenating both targets and
error events spec by spec. -/
lemma parse_ip_ranges_eq (ranges : List String) :
    parse_ip_ranges ranges
    = (ranges.flatMap (fun s => (expand_spec s).1),
       ranges.flatMap (fun s => (expand_spec s).2)) := by
  simpa [parse_ip_ranges] using parse_ip_ranges_go ranges ([], [])

/-- Every address produced by the range loop is at least the start address. -/
lemma range_expand_go_lower (n s : ℕ) : ∀ x ∈ (range_expand_go s n).1, s ≤ x := by
  induction n generalizing s with
  | zero => simp [range_expand_go]
  | succ n ih =>
    by_cases h : s = ipMax
    · subst h; simp [range_expand_go]
    · simp only [range_expand_go, if_neg h]
      intro x hx
      rcases List.mem_cons.mp hx with rfl | hx
      · exact le_refl _
      · exact Nat.le_of_succ_le (ih (s + 1) x hx)

/-- The range loop emits addresses in strictly ascending order. -/
lemma range_expand_go_pairwise (n s : ℕ) : (range_expand_go s n).1.Pairwise (· < ·) := by
  induction n generalizing s with
  | zero => simp [range_expand_go]
  | succ n ih =>
    by_cases h : s = ipMax
    · subst h; simp [range_expand_go]
    · simp only [range_expand_go, if_neg h]
      exact List.pairwise_cons.mpr
        ⟨fun x hx => Nat.lt_of_succ_le (range_expand_go_lower n (s + 1) x hx), ih (s + 1)⟩

/-- Range expansion is strictly ascending. -/
lemma range_expand_pairwise (s e : ℕ) : (range_expand s e).1.Pairwise (· < ·) :=
  range_expand_go_pairwise _ s

/-- CIDR host enumeration is strictly ascending. -/
lemma cidr_hosts_pairwise (net p : ℕ) : (cidr_hosts net p).Pairwise (· < ·) := by
  unfold cidr_hosts
  split
  · exact (List.pairwise_lt_range _).map _ (fun hab => by omega)
  · exact (List.pairwise_lt_range _).map _ (fun hab => by omega)

/-- Each single spec expands to a strictly ascending list of addresses. -/
lemma expand_spec_ascending (spec : String) :
    ∃ vals : List ℕ, (expand_spec spec).1 = vals.map ipToString ∧ vals.Pairwise (· < ·) := by
  unfold expand_spec
  split
  · split
    · rename_i net p _
      exact ⟨cidr_hosts net p, rfl, cidr_hosts_pairwise net p⟩
    · exact ⟨[], rfl, List.Pairwise.nil⟩
  · split
    · split
      · split
        · rename_i s e _ _
          exact ⟨(range_expand s e).1, rfl, range_expand_pairwise s e⟩
        · exact ⟨[], rfl, List.Pairwise.nil⟩
      · exact ⟨[], rfl, List.Pairwise.nil⟩
    · split
      · rename_i v _
        exact ⟨[v], rfl, List.pairwise_singleton _ _⟩
      · exact ⟨[], rfl, List.Pairwise.nil⟩

/-- C3, counterexample: `_parse_ip_ranges` performs no deduplication.  The
input `["10.0.0.1", "10.0.0.1"]` expands to both occurrences, so the claim
that only the first occurrence of each address is kept is false. -/
theorem c3_counterexample_duplicates_kept :
    (parse_ip_ranges ["10.0.0.1", "10.0.0.1"]).1 = ["10.0.0.1", "10.0.0.1"] ∧
      ¬ (parse_ip_ranges ["10.0.0.1", "10.0.0.1"]).1.Nodup := by
  exact ⟨by decide, by decide⟩

/-- C3, amended: expansion returns targets in input-spec order, each spec
expanded in its own ascending (numeric address) order, with no deduplication:
the result is exactly the concatenation of the per-spec expansions. -/
theorem c3_amended_order_preserved_no_dedup :
    (∀ ranges : List String,
        (parse_ip_ranges ranges).1 = ranges.flatMap (fun s => (expand_spec s).1)) ∧
      ∀ spec : String,
        ∃ vals : List ℕ, (expand_spec spec).1 = vals.map ipToString ∧ vals.Pairwise (· < ·) :=
  ⟨fun ranges => by rw [parse_ip_ranges_eq], expand_spec_ascending⟩

/-- C4, counterexample: the reversed range `10.0.0.5-10.0.0.2` contributes no
targets but also emits no error event, so the claim that it is reported
through the error event is false. -/
theorem c4_counterexample_reversed_range_silent :
    parse_ip_ranges ["10.0.0.5-10.0.0.2"] = ([], []) := by
  decide

/-- C4, amended: a range spec `ip1-ip2` with `ip1 > ip2` contributes no
targets and expansion continues with the remaining specs, but it is not
reported through the error event: the `while current <= end` loop simply runs
zero iterations and the spec is silently treated as empty. -/
theorem c4_amended_reversed_range_empty_and_silent :
    (∀ s e : ℕ, e < s → range_expand s e = ([], false)) ∧
      parse_ip_ranges ["10.0.0.5-10.0.0.2", "10.0.0.7"] = (["10.0.0.7"], []) := by
  refine ⟨fun s e h => ?_, by decide⟩
  unfold range_expand
  rw [Nat.sub_eq_zero_of_le (by omega)]
  rfl

/-- C4, witness: the amended statement applied to the concrete reversed range
`10.0.0.5-10.0.0.2` (numeric start 5 greater than end 2 in the last octet). -/
theorem c4_amended_witness :
    range_expand (10 * 2 ^ 24 + 5) (10 * 2 ^ 24 + 2) = ([], false) :=
  c4_amended_reversed_range_empty_and_silent.1 _ _ (by norm_num)

/-! ### Probing

Models of `_ping_host_scapy`, `_ping_host_socket`, `_scan_port` and the
simulation branches of `_discover_hosts` / `_scan_ports`.  The outcome of the
network or of the random generator is an input (an oracle value); the
functions below are the source code mapping that outcome to a result. -/

/-- Outcome of `sr1(IP(dst=ip)/ICMP(), ...)`: an exception, no response, or a
response observed after `rt` milliseconds. -/
inductive ScapyOutcome where
  | err
  | noResp
  | resp (rt : ℚ)
deriving DecidableEq, Repr

/-- Outcome of a TCP `connect_ex` call: an exception, or a result code
observed after `rt` milliseconds. -/
inductive SocketOutcome where
  | err
  | conn (result : ℤ) (rt : ℚ)
deriving DecidableEq, Repr

/-- `NetworkScanner._ping_host_scapy`: alive with the measured response time
on a response; dead with no response time otherwise (timeouts and exceptions
alike). -/
def ping_host_scapy : ScapyOutcome → Bool × Option ℚ
  | .resp rt => (true, some rt)
  | .noResp => (false, none)
  | .err => (false, none)

/-- `NetworkScanner._ping_host_socket`: TCP connect to port 80; alive exactly
when `connect_ex` returns 0, and the response time is kept only in that
case. -/
def ping_host_socket : SocketOutcome → Bool × Option ℚ
  | .err => (false, none)
  | .conn r rt => (decide (r = 0), if r = 0 then some rt else none)

/-- Raw nondeterministic inputs consumed by one host probe: the
`random.random()` and `random.uniform(1, 100)` draws of the simulation branch
and the scapy/socket outcomes of the real branch. -/
structure ProbeRaw where
  simAliveDraw : ℚ
  simRtDraw : ℚ
  scapy : ScapyOutcome
  sock : SocketOutcome
deriving DecidableEq, Repr

/-- `NetworkScanner._ping_host`: scapy ICMP ping when scapy imported, TCP
connect fallback otherwise. -/
def ping_host (scapy_available : Bool) (raw : ProbeRaw) : Bool × Option ℚ :=
  if scapy_available then ping_host_scapy raw.scapy else ping_host_socket raw.sock

/-- Simulation branch of `_discover_hosts`: alive when the uniform draw is
below 0.3, with the second draw as response time only when alive. -/
def simulate_ping (aliveDraw rtDraw : ℚ) : Bool × Option ℚ :=
  (decide (aliveDraw < 3 / 10), if aliveDraw < 3 / 10 then some rtDraw else none)

/-- Raw nondeterministic inputs consumed by one port probe. -/
structure PortRaw where
  simDraw : ℚ
  sock : SocketOutcome
deriving DecidableEq, Repr

/-- `NetworkScanner._scan_port`: open exactly when `connect_ex` returns 0;
any exception counts as closed. -/
def scan_port : SocketOutcome → Bool
  | .err => false
  | .conn r _ => decide (r = 0)

/-- One port check of `_scan_ports`: the 5%-chance simulation draw or a real
connect attempt. -/
def port_is_open (use_simulation : Bool) (raw : PortRaw) : Bool :=
  if use_simulation then decide (raw.simDraw < 1 / 20) else scan_port raw.sock

/-! ### Scanner state and environment -/

/-- `ScanMode` enum. -/
inductive ScanMode where
  | light
  | hard
deriving DecidableEq, Repr

/-- Mutable state of a `NetworkScanner` object.  `hosts` is the results dict
in insertion order; `stop_requested` is the `threading.Event` as last set by
`start_scan`/`stop_scan` on the calling thread. -/
structure ScannerState where
  mode : ScanMode
  timeout : ℚ
  max_threads : ℕ
  use_simulation : Bool
  running : Bool
  stop_requested : Bool
  hosts : List (String × HostInfo)
  progress : ScanProgress
deriving DecidableEq, Repr

/-- Environment of one scan run.  Each consultation of the environment
(a random draw, a probe outcome, a read of the shared stop flag, a wall-clock
reading) is indexed by a tick counter threaded through the run; quantifying
over all oracles covers every probe outcome, every asynchronous `stop_scan`
schedule and every clock behaviour.  `elapsedAt t` is the value of
`time.time() - start_time` at tick `t`; `resolve` is the external
`resolve_hostname` collaborator, which returns the address itself on
failure. -/
structure Oracle where
  ping : ℕ → ProbeRaw
  port : ℕ → PortRaw
  resolve : String → String
  stop : ℕ → Bool
  now : ℕ → ℚ
  elapsedAt : ℕ → ℚ

/-- `NetworkScanner.__init__`: note `use_simulation or not SCAPY_AVAILABLE` —
a missing scapy import forces simulation regardless of the argument. -/
def mkScanner (mode : ScanMode) (timeout : ℚ) (max_threads : ℕ)
    (use_simulation scapy_available : Bool) : ScannerState :=
  { mode := mode, timeout := timeout, max_threads := max_threads,
    use_simulation := use_simulation || !scapy_available,
    running := false, stop_requested := false, hosts := [], progress := {} }

/-- `NetworkScanner.is_running`. -/
def is_running (st : ScannerState) : Bool :=
  st.running

/-- `NetworkScanner.get_alive_hosts`. -/
def get_alive_hosts (st : ScannerState) : List HostInfo :=
  (st.hosts.map (·.2)).filter (·.is_alive)

/-- `NetworkScanner.get_hosts_with_open_ports` (Python truthiness of a list
is non-emptiness). -/
def get_hosts_with_open_ports (st : ScannerState) : List HostInfo :=
  (st.hosts.map (·.2)).filter (fun h => !h.open_ports.isEmpty)

/-- Python dict assignment `d[k] = v`: replaces in place if the key exists,
appends otherwise (insertion order preserved). -/
def dict_insert (l : List (String × HostInfo)) (k : String) (v : HostInfo) :
    List (String × HostInfo) :=
  if l.any (fun kv => kv.1 = k) then l.map (fun kv => if kv.1 = k then (k, v) else kv)
  else l ++ [(k, v)]

/-- Python dict lookup `d[k]` as an `Option` (a miss raises `KeyError` at the
call site). -/
def dict_find (l : List (String × HostInfo)) (k : String) : Option HostInfo :=
  (l.find? (fun kv => kv.1 = k)).map (·.2)

/-- `NetworkScanner._emit_progress_update`, lines 378-397, assuming a
callback is registered.  The ETA block runs only when `hosts_scanned > 0`;
inside it, `rate = done_work / elapsed` raises `ZeroDivisionError` when
`elapsed` is exactly zero — the surrounding `except` clause catches it, so
the update returns normally but the callback invocation is skipped (no event)
and `estimated_remaining` keeps its previous value. -/
def emit_progress_update (p : ScanProgress) (elapsed : ℚ) : ScanProgress × List Event :=
  if 0 < p.hosts_scanned then
    let p1 := { p with elapsed_time := elapsed }
    let total_work : ℚ := (p1.hosts_total : ℚ) + (p1.ports_total : ℚ)
    let done_work : ℚ := (p1.hosts_scanned : ℚ) + (p1.ports_scanned : ℚ)
    if 0 < done_work then
      if elapsed = 0 then (p1, [])
      else
        let rate := done_work / elapsed
        let p2 := { p1 with estimated_remaining :=
          if 0 < rate then (total_work - done_work) / rate else 0 }
        (p2, [Event.progressUpdate p2])
    else (p1, [Event.progressUpdate p1])
  else (p, [Event.progressUpdate p])

/-! ### Discovery phase -/

/-- The liveness probe chosen by `_discover_hosts` for one host: the
simulation branch (lines 261-265) when `use_simulation` is set, the real
`_ping_host` otherwise. -/
def discover_probe (useSim scapyAvail : Bool) (raw : ProbeRaw) : Bool × Option ℚ :=
  if useSim then simulate_ping raw.simAliveDraw raw.simRtDraw
  else ping_host scapyAvail raw

/-- Body of one iteration of the `for i, ip in enumerate(targets)` loop of
`_discover_hosts` (the stop check has already passed): sets the current
target and `hosts_scanned = i + 1`, probes the host, counts it when alive,
optionally resolves the hostname, stores the record in the host table and
emits host-found then progress events. -/
def discover_step (useSim scapyAvail resolveH : Bool) (o : Oracle) (ip : String) (i t : ℕ)
    (st : ScannerState) : ScannerState × List Event × ℕ :=
  let p0 := { st.progress with current_target := ip, hosts_scanned := i + 1 }
  let h0 : HostInfo := { ip := ip, last_seen := o.now t }
  let ar := discover_probe useSim scapyAvail (o.ping (t + 1))
  let p1 := if ar.1 then { p0 with hosts_found := p0.hosts_found + 1 } else p0
  let h1 := { h0 with
    is_alive := ar.1
    response_time := ar.2
    hostname := if ar.1 && resolveH then some (o.resolve ip) else none }
  let st1 := { st with hosts := dict_insert st.hosts ip h1, progress := p1 }
  let pe := emit_progress_update st1.progress (o.elapsedAt (t + 2))
  ({ st1 with progress := pe.1 }, Event.hostFound h1 :: pe.2, t + 3)

/-- `NetworkScanner._discover_hosts`: iterates the targets, checking the
shared stop flag before each host and breaking out when it is set. -/
def discover_hosts (useSim scapyAvail resolveH : Bool) (o : Oracle) :
    List String → ℕ → ℕ → ScannerState → ScannerState × List Event × ℕ
  | [], _, t, st => (st, [], t)
  | ip :: rest, i, t, st =>
    if o.stop t then (st, [], t + 1)
    else
      match discover_step useSim scapyAvail resolveH o ip i (t + 1) st with
      | (st1, evs1, t1) =>
        match discover_hosts useSim scapyAvail resolveH o rest (i + 1) t1 st1 with
        | (st2, evs2, t2) => (st2, evs1 ++ evs2, t2)

/-! ### Port phase -/

/-- Merge of one probed port (lines 342-352): when open, the port is
appended to the record's `open_ports`, the counter advances and the updated
host is re-emitted; a closed port changes nothing. -/
def port_step (useSim : Bool) (raw : PortRaw) (port : ℕ) (h : HostInfo) (p : ScanProgress) :
    HostInfo × ScanProgress × List Event :=
  if port_is_open useSim raw then
    let h1 := { h with open_ports := h.open_ports ++ [port] }
    (h1, { p with open_ports_found := p.open_ports_found + 1 }, [Event.hostFound h1])
  else (h, p, [])

/-- Inner `for port in ports` loop of `_scan_ports` for one host: checks the
stop flag before each port, advances the shared `scanned` counter, probes the
port and merges the outcome, then emits a progress event.  The Python code
mutates the `HostInfo` object stored in the dict in place; the model threads
the record through the loop and the caller writes it back, which yields the
same event trace and the same final table. -/
def scan_ports_host (useSim : Bool) (o : Oracle) :
    List ℕ → ℕ → ℕ → HostInfo → ScanProgress →
      HostInfo × ScanProgress × List Event × ℕ × ℕ
  | [], scanned, t, h, p => (h, p, [], scanned, t)
  | port :: rest, scanned, t, h, p =>
    if o.stop t then (h, p, [], scanned, t + 1)
    else
      let scanned1 := scanned + 1
      let p1 := { p with ports_scanned := scanned1 }
      let hp := port_step useSim (o.port (t + 1)) port h p1
      let pe := emit_progress_update hp.2.1 (o.elapsedAt (t + 2))
      match scan_ports_host useSim o rest scanned1 (t + 3) hp.1 pe.1 with
      | (h2, p2, evs, scanned2, t2) => (h2, p2, hp.2.2 ++ pe.2 ++ evs, scanned2, t2)

/-- `NetworkScanner._scan_ports`: outer loop over the alive targets, checking
the stop flag before each target.  A missing key in the host table would
raise `KeyError`; the error is returned to the worker, whose `except` clause
reports it (the branch is unreachable because the alive list is built from
the table). -/
def scan_ports (useSim : Bool) (o : Oracle) (ports : List ℕ) :
    List String → ℕ → ℕ → ScannerState →
      ScannerState × List Event × ℕ × Option String
  | [], _, t, st => (st, [], t, none)
  | tgt :: rest, scanned, t, st =>
    if o.stop t then (st, [], t + 1, none)
    else
      let p0 := { st.progress with current_target := tgt ++ ":ports" }
      match dict_find st.hosts tgt with
      | none => ({ st with progress := p0 }, [], t + 1, some ("KeyError: " ++ tgt))
      | some h =>
        match scan_ports_host useSim o ports scanned (t + 1) h p0 with
        | (h1, p1, evs1, scanned1, t1) =>
          let st1 := { st with hosts := dict_insert st.hosts tgt h1, progress := p1 }
          match scan_ports useSim o ports rest scanned1 t1 st1 with
          | (st2, evs2, t2, e2) => (st2, evs1 ++ evs2, t2, e2)

/-! ### Orchestration -/

/-- `NetworkScanner._scan_worker`: discovery, then — unless the stop flag is
set — port scanning of the hosts marked alive; any exception raised in the
`try` body is caught and reported through the error event; the `finally`
block then clears the running flags, records the elapsed time, emits a final
progress update and fires the completion event.  `fault` injects an
unhandled internal error at the end of the `try` body, modelling the
OrchestrationError case (the pure body itself only fails on the unreachable
`KeyError`). -/
def scan_worker (useSim scapyAvail resolveH : Bool) (o : Oracle) (targets : List String)
    (ports : List ℕ) (fault : Option String) (st : ScannerState) :
    ScannerState × List Event :=
  let body : ScannerState × List Event × ℕ × Option String :=
    match discover_hosts useSim scapyAvail resolveH o targets 0 0 st with
    | (st1, evs1, t1) =>
      if o.stop t1 then (st1, evs1, t1 + 1, (none : Option String))
      else
        let alive := (st1.hosts.filter (fun kv => kv.2.is_alive)).map (·.1)
        if alive.isEmpty || ports.isEmpty then (st1, evs1, t1 + 1, none)
        else
          match scan_ports useSim o ports alive 0 (t1 + 1) st1 with
          | (st2, evs2, t2, e2) => (st2, evs1 ++ evs2, t2, e2)
  match body with
  | (st2, evs2, t2, err) =>
    let err2 := match fault with
      | some m => some m
      | none => err
    let evErr := match err2 with
      | some m => [Event.error ("Błąd podczas skanowania: " ++ m)]
      | none => ([] : List Event)
    let p1 := { st2.progress with is_running := false, elapsed_time := o.elapsedAt t2 }
    let pe := emit_progress_update p1 (o.elapsedAt (t2 + 1))
    ({ st2 with running := false, progress := pe.1 },
      evs2 ++ evErr ++ pe.2 ++ [Event.scanComplete])

/-- Default port set for LIGHT mode (`self.common_ports`). -/
def common_ports : List ℕ :=
  [21, 22, 23, 25, 53, 80, 110, 111, 135, 139, 143, 443, 993, 995]

/-- Default port set for HARD mode (`self.full_ports = range(1, 1025)`). -/
def full_ports : List ℕ :=
  List.range' 1 1024

/-- `NetworkScanner.start_scan`: a no-op while already running; otherwise
sets the running flag, clears the stop flag and the host table, expands the
targets — returning early (with the running flag still set) when expansion is
empty — chooses the port list, resets the progress struct and launches the
worker thread.  The third component is the argument pack handed to the
launched thread, `none` when no thread starts. -/
def start_scan (st : ScannerState) (ip_ranges : List String) (ports : Option (List ℕ)) :
    ScannerState × List Event × Option (List String × List ℕ) :=
  if st.running then (st, [], none)
  else
    let st1 := { st with running := true, stop_requested := false, hosts := [] }
    let te := parse_ip_ranges ip_ranges
    if te.1.isEmpty then
      (st1, te.2 ++ [Event.error "Brak prawidłowych celów do skanowania"], none)
    else
      let ps := match ports with
        | some ps => ps
        | none => if st.mode = ScanMode.light then common_ports else full_ports
      let st2 := { st1 with progress :=
        { hosts_total := te.1.length, ports_total := ps.length * te.1.length,
          is_running := true } }
      (st2, te.2, some (te.1, ps))

/-- `NetworkScanner.stop_scan`: a no-op while idle; otherwise sets the stop
flag, clears the running flags, joins the worker (a bounded wait, invisible
to the pure state) and emits one progress update.  No completion event is
emitted here. -/
def stop_scan (st : ScannerState) (elapsed : ℚ) : ScannerState × List Event :=
  if st.running then
    let st1 := { st with
      stop_requested := true
      running := false
      progress := { st.progress with is_running := false } }
    let pe := emit_progress_update st1.progress elapsed
    ({ st1 with progress := pe.1 }, pe.2)
  else (st, [])

/-- One full session: `start_scan` followed — when a worker thread was
launched — by the run of that worker.  `resolveH` is the
`resolve_hostnames` argument of `start_scan`, passed through to the
worker. -/
def scan_session (scapyAvail resolveH : Bool) (o : Oracle) (st : ScannerState)
    (ip_ranges : List String) (ports : Option (List ℕ)) (fault : Option String) :
    ScannerState × List Event :=
  match start_scan st ip_ranges ports with
  | (st1, evs1, none) => (st1, evs1)
  | (st1, evs1, some (targets, ps)) =>
    match scan_worker st1.use_simulation scapyAvail resolveH o targets ps fault st1 with
    | (st2, evs2) => (st2, evs1 ++ evs2)

/-! ### Concrete test environments

Oracles used to evaluate the embedded scanner on concrete runs.  Draw value
`0` is below both the 0.3 liveness threshold and the 0.05 open-port
threshold; draw value `1` is above both. -/

/-- Environment in which every simulated host probe reports alive and every
simulated port probe reports open; the stop flag is never set and the clock
reads a constant elapsed second. -/
def oracleAllAlive : Oracle :=
  { ping := fun _ => { simAliveDraw := 0, simRtDraw := 5, scapy := .noResp, sock := .err }
    port := fun _ => { simDraw := 0, sock := .err }
    resolve := fun ip => ip
    stop := fun _ => false
    now := fun _ => 0
    elapsedAt := fun _ => 1 }

/-- Environment in which only the first probed host (its probe draw happens
at tick 2) reports alive; ports all report open. -/
def oracleFirstAlive : Oracle :=
  { ping := fun t =>
      { simAliveDraw := if t = 2 then 0 else 1, simRtDraw := 5
        scapy := .noResp, sock := .err }
    port := fun _ => { simDraw := 0, sock := .err }
    resolve := fun ip => ip
    stop := fun _ => false
    now := fun _ => 0
    elapsedAt := fun _ => 1 }

/-- C1: calling `start_scan` with specs expanding to zero targets emits the
error event and launches no worker (so no host-found event can ever fire),
but the claim that `is_running()` stays false fails on the code: line 126
sets `self._running = True` before the empty-target check and the early
return at line 134 never resets it, so `is_running()` reports `true` and the
scanner is left permanently refusing new `start_scan` calls.  This theorem
evaluates the code at the failing input `start_scan([])` on a fresh idle
scanner. -/
theorem c1_empty_targets_leaves_running_true :
    is_running (start_scan (mkScanner ScanMode.light 2 50 false true) [] none).1 = true ∧
      (start_scan (mkScanner ScanMode.light 2 50 false true) [] none).2.1
        = [Event.error "Brak prawidłowych celów do skanowania"] ∧
      (start_scan (mkScanner ScanMode.light 2 50 false true) [] none).2.2 = none := by
  refine ⟨by decide, by decide, by decide⟩

section
set_option allowUnsafeReducibility true
attribute [local semireducible] Rat.add Rat.mul Rat.sub Rat.inv

/-- C2, counterexample: `_scan_ports` appends each open port as probed
(line 350) and never sorts or deduplicates, so with configured ports
`[443, 80, 80]` all open, the stored record exposes `[443, 80, 80]` — not
the claimed `[80, 443]`; the stored list is not even sorted. -/
theorem c2_counterexample_unsorted_duplicated_ports :
    (dict_find (scan_session true true oracleAllAlive (mkScanner ScanMode.light 2 50 true true)
        ["10.0.0.1"] (some [443, 80, 80]) none).1.hosts "10.0.0.1").map HostInfo.open_ports
      = some [443, 80, 80] ∧
      ¬ List.Pairwise (· < ·) [443, 80, 80] := by
  refine ⟨by decide, by decide⟩

/-- C5, counterexample: `start_scan` computes `ports_total` at line 143 as
`len(ports) * len(targets)` before discovery and never recomputes it.  In a
run over two targets of which one is alive, with one configured port,
`ports_total` is 2 for the whole session, while `alive_hosts × |ports|`
is 1. -/
theorem c5_counterexample_ports_total_over_all_targets :
    (scan_session true true oracleFirstAlive (mkScanner ScanMode.light 2 50 true true)
        ["10.0.0.1", "10.0.0.2"] (some [80]) none).1.progress.ports_total = 2 ∧
      (get_alive_hosts (scan_session true true oracleFirstAlive
          (mkScanner ScanMode.light 2 50 true true)
          ["10.0.0.1", "10.0.0.2"] (some [80]) none).1).length = 1 := by
  refine ⟨by decide, by decide⟩

end

/-! ### Trace views and invariant preorders -/

/-- The progress snapshots of a trace, in emission order. -/
def progressSnapshots (evs : List Event) : List ScanProgress :=
  evs.filterMap (fun e => match e with | .progressUpdate p => some p | _ => none)

/-- The host records handed to the host-found callback, in emission order. -/
def hostSnapshots (evs : List Event) : List HostInfo :=
  evs.filterMap (fun e => match e with | .hostFound h => some h | _ => none)

/-- Number of completion events in a trace. -/
def completeCount (evs : List Event) : ℕ :=
  (evs.filter (fun e => e = Event.scanComplete)).length

/-- Counter ordering between progress snapshots: every scanned/found counter
of the first is at most that of the second. -/
def progressLE (p q : ScanProgress) : Prop :=
  p.hosts_scanned ≤ q.hosts_scanned ∧ p.ports_scanned ≤ q.ports_scanned ∧
    p.hosts_found ≤ q.hosts_found ∧ p.open_ports_found ≤ q.open_ports_found

/-- Two snapshots agree on the totals. -/
def sameTotals (p q : ScanProgress) : Prop :=
  p.hosts_total = q.hosts_total ∧ p.ports_total = q.ports_total

lemma progressLE_refl (p : ScanProgress) : progressLE p p :=
  ⟨le_refl _, le_refl _, le_refl _, le_refl _⟩

lemma progressLE_trans {p q r : ScanProgress} (h1 : progressLE p q) (h2 : progressLE q r) :
    progressLE p r :=
  ⟨h1.1.trans h2.1, h1.2.1.trans h2.2.1, h1.2.2.1.trans h2.2.2.1, h1.2.2.2.trans h2.2.2.2⟩

lemma sameTotals_trans {p q r : ScanProgress} (h1 : sameTotals p q) (h2 : sameTotals q r) :
    sameTotals p r :=
  ⟨h1.1.trans h2.1, h1.2.trans h2.2⟩

/-- A progress emission changes only the timing fields of the progress
struct, and its trace is at most one progress event carrying exactly the
resulting struct. -/
lemma emit_progress_update_cases (p : ScanProgress) (e : ℚ) :
    ((emit_progress_update p e).1.hosts_total = p.hosts_total ∧
      (emit_progress_update p e).1.hosts_scanned = p.hosts_scanned ∧
      (emit_progress_update p e).1.ports_total = p.ports_total ∧
      (emit_progress_update p e).1.ports_scanned = p.ports_scanned ∧
      (emit_progress_update p e).1.hosts_found = p.hosts_found ∧
      (emit_progress_update p e).1.open_ports_found = p.open_ports_found ∧
      (emit_progress_update p e).1.is_running = p.is_running ∧
      (emit_progress_update p e).1.current_target = p.current_target) ∧
    ((emit_progress_update p e).2 = [] ∨
      (emit_progress_update p e).2 = [Event.progressUpdate (emit_progress_update p e).1]) := by
  unfold emit_progress_update
  by_cases h1 : 0 < p.hosts_scanned <;>
    by_cases h2 : (0 : ℚ) < (p.hosts_scanned : ℚ) + (p.ports_scanned : ℚ) <;>
      by_cases h3 : e = 0 <;>
        simp [h1, h2, h3]

/-- C6: after a completed unit of work (a progress emission with a registered
callback), the estimated remaining time equals
`(total_units - done_units) / (done_units / elapsed)` whenever
`done_units > 0` and `elapsed > 0`, and equals 0 otherwise; the computation
returns normally in every case — a division by a zero `elapsed` raises
`ZeroDivisionError` inside the update, but the `except` clause of
`_emit_progress_update` catches it, so nothing propagates (that one callback
invocation is skipped and the estimate keeps its previous value, which is 0
in every state reachable with a monotone clock).  The hypotheses state
reachability: the estimate starts at 0 and `ports_scanned` only advances
after `hosts_scanned` has. -/
theorem c6_eta_formula_and_guarded_division (p : ScanProgress) (elapsed : ℚ)
    (helapsed : 0 ≤ elapsed)
    (hreach0 : p.hosts_scanned = 0 → p.estimated_remaining = 0)
    (hreachE : elapsed = 0 → p.estimated_remaining = 0)
    (hpo : 0 < p.ports_scanned → 0 < p.hosts_scanned) :
    (0 < (p.hosts_scanned : ℚ) + (p.ports_scanned : ℚ) ∧ 0 < elapsed →
      (emit_progress_update p elapsed).1.estimated_remaining
        = (((p.hosts_total : ℚ) + (p.ports_total : ℚ))
            - ((p.hosts_scanned : ℚ) + (p.ports_scanned : ℚ)))
          / (((p.hosts_scanned : ℚ) + (p.ports_scanned : ℚ)) / elapsed)) ∧
    (¬ (0 < (p.hosts_scanned : ℚ) + (p.ports_scanned : ℚ) ∧ 0 < elapsed) →
      (emit_progress_update p elapsed).1.estimated_remaining = 0) := by
  constructor
  · rintro ⟨hd, he⟩
    have hh : 0 < p.hosts_scanned := by
      rcases Nat.eq_zero_or_pos p.hosts_scanned with h0 | h1
      · rcases Nat.eq_zero_or_pos p.ports_scanned with q0 | q1
        · rw [h0, q0] at hd; norm_num at hd
        · exact hpo q1
      · exact h1
    have hrate : 0 < ((p.hosts_scanned : ℚ) + (p.ports_scanned : ℚ)) / elapsed :=
      div_pos hd he
    unfold emit_progress_update
    simp [hh, hd, ne_of_gt he, hrate]
  · intro h
    rcases Nat.eq_zero_or_pos p.hosts_scanned with h0 | h1
    · unfold emit_progress_update
      simp [h0, hreach0 h0]
    · have hd : 0 < (p.hosts_scanned : ℚ) + (p.ports_scanned : ℚ) := by positivity
      have he : elapsed = 0 := by
        by_contra hne
        exact h ⟨hd, lt_of_le_of_ne helapsed (Ne.symm hne)⟩
      unfold emit_progress_update
      simp [h1, hd, he, hreachE he]

/-- Progress state used to instantiate the ETA theorem: one host scanned out
of two, two port units pending, fresh estimate. -/
def etaWitnessProgress : ScanProgress :=
  { hosts_total := 2, ports_total := 2, hosts_scanned := 1 }

/-- C6, witness: the ETA theorem applied at a concrete snapshot (one host
scanned, elapsed one second). -/
theorem c6_eta_witness :
    (emit_progress_update etaWitnessProgress 1).1.estimated_remaining
      = (((etaWitnessProgress.hosts_total : ℚ) + (etaWitnessProgress.ports_total : ℚ))
          - ((etaWitnessProgress.hosts_scanned : ℚ) + (etaWitnessProgress.ports_scanned : ℚ)))
        / (((etaWitnessProgress.hosts_scanned : ℚ)
            + (etaWitnessProgress.ports_scanned : ℚ)) / 1) :=
  (c6_eta_formula_and_guarded_division etaWitnessProgress 1 (by norm_num)
      (fun h => by simp [etaWitnessProgress] at h)
      (fun h => by norm_num at h)
      (fun h => by simp [etaWitnessProgress])).1
    (by simp [etaWitnessProgress])

/-! ### Basic facts about traces, the host dict and probes -/

lemma progressSnapshots_append (a b : List Event) :
    progressSnapshots (a ++ b) = progressSnapshots a ++ progressSnapshots b := by
  simp [progressSnapshots]

lemma hostSnapshots_append (a b : List Event) :
    hostSnapshots (a ++ b) = hostSnapshots a ++ hostSnapshots b := by
  simp [hostSnapshots]

lemma completeCount_append (a b : List Event) :
    completeCount (a ++ b) = completeCount a + completeCount b := by
  simp [completeCount]

@[simp] lemma progressSnapshots_nil : progressSnapshots [] = [] := rfl
@[simp] lemma progressSnapshots_cons_host (h : HostInfo) (evs : List Event) :
    progressSnapshots (Event.hostFound h :: evs) = progressSnapshots evs := rfl
@[simp] lemma progressSnapshots_cons_pu (p : ScanProgress) (evs : List Event) :
    progressSnapshots (Event.progressUpdate p :: evs) = p :: progressSnapshots evs := rfl
@[simp] lemma progressSnapshots_cons_complete (evs : List Event) :
    progressSnapshots (Event.scanComplete :: evs) = progressSnapshots evs := rfl
@[simp] lemma progressSnapshots_cons_error (m : String) (evs : List Event) :
    progressSnapshots (Event.error m :: evs) = progressSnapshots evs := rfl
@[simp] lemma hostSnapshots_nil : hostSnapshots [] = [] := rfl
@[simp] lemma hostSnapshots_cons_host (h : HostInfo) (evs : List Event) :
    hostSnapshots (Event.hostFound h :: evs) = h :: hostSnapshots evs := rfl
@[simp] lemma hostSnapshots_cons_pu (p : ScanProgress) (evs : List Event) :
    hostSnapshots (Event.progressUpdate p :: evs) = hostSnapshots evs := rfl
@[simp] lemma hostSnapshots_cons_complete (evs : List Event) :
    hostSnapshots (Event.scanComplete :: evs) = hostSnapshots evs := rfl
@[simp] lemma hostSnapshots_cons_error (m : String) (evs : List Event) :
    hostSnapshots (Event.error m :: evs) = hostSnapshots evs := rfl
@[simp] lemma completeCount_nil : completeCount [] = 0 := rfl
@[simp] lemma completeCount_cons_host (h : HostInfo) (evs : List Event) :
    completeCount (Event.hostFound h :: evs) = completeCount evs := rfl
@[simp] lemma completeCount_cons_pu (p : ScanProgress) (evs : List Event) :
    completeCount (Event.progressUpdate p :: evs) = completeCount evs := rfl
@[simp] lemma completeCount_cons_complete (evs : List Event) :
    completeCount (Event.scanComplete :: evs) = completeCount evs + 1 := by
  simp [completeCount, List.filter]
@[simp] lemma completeCount_cons_error (m : String) (evs : List Event) :
    completeCount (Event.error m :: evs) = completeCount evs := rfl

@[simp] lemma emit_pu_hosts_total (p : ScanProgress) (e : ℚ) :
    (emit_progress_update p e).1.hosts_total = p.hosts_total :=
  (emit_progress_update_cases p e).1.1
@[simp] lemma emit_pu_hosts_scanned (p : ScanProgress) (e : ℚ) :
    (emit_progress_update p e).1.hosts_scanned = p.hosts_scanned :=
  (emit_progress_update_cases p e).1.2.1
@[simp] lemma emit_pu_ports_total (p : ScanProgress) (e : ℚ) :
    (emit_progress_update p e).1.ports_total = p.ports_total :=
  (emit_progress_update_cases p e).1.2.2.1
@[simp] lemma emit_pu_ports_scanned (p : ScanProgress) (e : ℚ) :
    (emit_progress_update p e).1.ports_scanned = p.ports_scanned :=
  (emit_progress_update_cases p e).1.2.2.2.1
@[simp] lemma emit_pu_hosts_found (p : ScanProgress) (e : ℚ) :
    (emit_progress_update p e).1.hosts_found = p.hosts_found :=
  (emit_progress_update_cases p e).1.2.2.2.2.1
@[simp] lemma emit_pu_open_ports_found (p : ScanProgress) (e : ℚ) :
    (emit_progress_update p e).1.open_ports_found = p.open_ports_found :=
  (emit_progress_update_cases p e).1.2.2.2.2.2.1
@[simp] lemma emit_pu_is_running (p : ScanProgress) (e : ℚ) :
    (emit_progress_update p e).1.is_running = p.is_running :=
  (emit_progress_update_cases p e).1.2.2.2.2.2.2.1

lemma emit_pu_snapshots (p : ScanProgress) (e : ℚ) :
    progressSnapshots (emit_progress_update p e).2 = [] ∨
      progressSnapshots (emit_progress_update p e).2 = [(emit_progress_update p e).1] := by
  rcases (emit_progress_update_cases p e).2 with h | h <;> rw [h] <;> simp

@[simp] lemma emit_pu_hostSnapshots (p : ScanProgress) (e : ℚ) :
    hostSnapshots (emit_progress_update p e).2 = [] := by
  rcases (emit_progress_update_cases p e).2 with h | h <;> rw [h] <;> simp

@[simp] lemma emit_pu_completeCount (p : ScanProgress) (e : ℚ) :
    completeCount (emit_progress_update p e).2 = 0 := by
  rcases (emit_progress_update_cases p e).2 with h | h <;> rw [h] <;> simp

lemma dict_insert_mem {l : List (String × HostInfo)} {k : String} {v : HostInfo} :
    ∀ kv ∈ dict_insert l k v, kv = (k, v) ∨ kv ∈ l := by
  intro kv hkv
  unfold dict_insert at hkv
  split at hkv
  · rcases List.mem_map.mp hkv with ⟨kv0, hkv0, heq⟩
    by_cases hk : kv0.1 = k
    · left; rw [← heq]; simp [hk]
    · right; rw [← heq]; simpa [hk] using hkv0
  · rcases List.mem_append.mp hkv with h | h
    · right; exact h
    · left; simpa using h

lemma dict_insert_keys {l : List (String × HostInfo)} {k : String} {v : HostInfo} :
    (dict_insert l k v).map Prod.fst = l.map Prod.fst ∨
      (dict_insert l k v).map Prod.fst = l.map Prod.fst ++ [k] := by
  unfold dict_insert
  split
  · left
    rw [List.map_map]
    apply List.map_congr_left
    intro kv _
    by_cases hk : kv.1 = k <;> simp [hk]
  · right; simp

lemma dict_insert_keys_nodup {l : List (String × HostInfo)} {k : String} {v : HostInfo}
    (hn : (l.map Prod.fst).Nodup) : ((dict_insert l k v).map Prod.fst).Nodup := by
  rcases @dict_insert_keys l k v with h | h
  · rw [h]; exact hn
  · rw [h]
    have hk : k ∉ l.map Prod.fst := by
      unfold dict_insert at h
      split at h
      · rename_i hany
        exfalso
        have : (l.map Prod.fst).length = (l.map Prod.fst ++ [k]).length := by rw [← h]; simp
        simp at this
      · rename_i hany
        intro hmem
        rcases List.mem_map.mp hmem with ⟨kv, hkv, hke⟩
        exact hany (List.any_eq_true.mpr ⟨kv, hkv, by simp [hke]⟩)
    simp only [List.nodup_append]
    exact ⟨hn, List.nodup_singleton _, by simpa using hk⟩

lemma find_replace_eq (l : List (String × HostInfo)) (k : String) (v : HostInfo)
    (hany : l.any (fun kv => kv.1 = k)) :
    (l.map (fun kv => if kv.1 = k then (k, v) else kv)).find? (fun kv => kv.1 = k)
      = some (k, v) := by
  induction l with
  | nil => simp at hany
  | cons kv rest ih =>
    by_cases hk : kv.1 = k
    · simp [List.find?_cons, hk]
    · simp only [List.any_cons, Bool.or_eq_true, decide_eq_true_eq] at hany
      rcases hany with h | h
      · exact absurd h hk
      · simp [List.find?_cons, hk, ih h]

lemma find_replace_ne (l : List (String × HostInfo)) (k k2 : String) (v : HostInfo)
    (hne : k2 ≠ k) :
    (l.map (fun kv => if kv.1 = k then (k, v) else kv)).find? (fun kv => kv.1 = k2)
      = l.find? (fun kv => kv.1 = k2) := by
  induction l with
  | nil => simp
  | cons kv rest ih =>
    by_cases hk : kv.1 = k
    · have h2 : kv.1 ≠ k2 := by rw [hk]; exact fun h => hne h.symm
      rw [List.map_cons, List.find?_cons, List.find?_cons, if_pos hk]
      simp only [decide_eq_false (fun h => hne (Eq.symm h)), decide_eq_false h2]
      exact ih
    · rw [List.map_cons, List.find?_cons, List.find?_cons, if_neg hk]
      by_cases hk2 : kv.1 = k2
      · simp only [decide_eq_true hk2]
      · simp only [decide_eq_false hk2]
        exact ih

lemma dict_find_insert (l : List (String × HostInfo)) (k k2 : String) (v : HostInfo) :
    dict_find (dict_insert l k v) k2 = if k2 = k then some v else dict_find l k2 := by
  unfold dict_find dict_insert
  by_cases hany : l.any (fun kv => kv.1 = k)
  · rw [if_pos hany]
    by_cases hk2 : k2 = k
    · subst hk2
      rw [find_replace_eq l k2 v hany]
      simp
    · rw [find_replace_ne l k k2 v hk2]
      simp [hk2]
  · rw [if_neg hany]
    by_cases hk2 : k2 = k
    · subst hk2
      have hnone : l.find? (fun kv => kv.1 = k2) = none := by
        rw [List.find?_eq_none]
        intro kv hkv
        simp only [decide_eq_true_eq]
        intro he
        exact hany (List.any_eq_true.mpr ⟨kv, hkv, by simp [he]⟩)
      rw [List.find?_append, hnone]
      simp
    · rw [List.find?_append]
      by_cases hfind : (l.find? (fun kv => kv.1 = k2)).isSome
      · rcases Option.isSome_iff_exists.mp hfind with ⟨kv0, h0⟩
        simp [h0, hk2]
      · have hnone := Option.not_isSome_iff_eq_none.mp hfind
        simp [hnone, hk2]
        exact fun h => hk2 (Eq.symm h)

lemma simulate_ping_rt_alive (a r : ℚ) :
    (simulate_ping a r).2 ≠ none → (simulate_ping a r).1 = true := by
  unfold simulate_ping
  by_cases h : a < 3 / 10 <;> simp [h]

lemma ping_host_rt_alive (sa : Bool) (raw : ProbeRaw) :
    (ping_host sa raw).2 ≠ none → (ping_host sa raw).1 = true := by
  unfold ping_host ping_host_scapy ping_host_socket
  cases sa with
  | true =>
    cases raw.scapy <;> simp
  | false =>
    cases h : raw.sock with
    | err => simp
    | conn r rt => by_cases h0 : r = 0 <;> simp [h0]

lemma discover_probe_rt_alive (u sa : Bool) (raw : ProbeRaw) :
    (discover_probe u sa raw).2 ≠ none → (discover_probe u sa raw).1 = true := by
  unfold discover_probe
  by_cases hu : u
  · simp only [hu, if_true]
    exact simulate_ping_rt_alive _ _
  · simp only [hu, if_false]
    exact ping_host_rt_alive _ _

/-! ### Discovery-phase trace facts -/

lemma discover_step_spec (u sa rh : Bool) (o : Oracle) (ip : String) (i t : ℕ)
    (st : ScannerState) :
    (discover_step u sa rh o ip i t st).1.progress.hosts_total = st.progress.hosts_total ∧
    (discover_step u sa rh o ip i t st).1.progress.ports_total = st.progress.ports_total ∧
    (discover_step u sa rh o ip i t st).1.progress.hosts_scanned = i + 1 ∧
    (discover_step u sa rh o ip i t st).1.progress.ports_scanned
      = st.progress.ports_scanned ∧
    st.progress.hosts_found ≤ (discover_step u sa rh o ip i t st).1.progress.hosts_found ∧
    (discover_step u sa rh o ip i t st).1.progress.open_ports_found
      = st.progress.open_ports_found ∧
    (discover_step u sa rh o ip i t st).1.running = st.running ∧
    (discover_step u sa rh o ip i t st).1.use_simulation = st.use_simulation ∧
    (∃ h1 : HostInfo,
      (discover_step u sa rh o ip i t st).1.hosts = dict_insert st.hosts ip h1 ∧
      h1.open_ports = [] ∧
      (h1.response_time ≠ none → h1.is_alive = true) ∧
      hostSnapshots (discover_step u sa rh o ip i t st).2.1 = [h1]) ∧
    (progressSnapshots (discover_step u sa rh o ip i t st).2.1 = [] ∨
      progressSnapshots (discover_step u sa rh o ip i t st).2.1
        = [(discover_step u sa rh o ip i t st).1.progress]) ∧
    completeCount (discover_step u sa rh o ip i t st).2.1 = 0 := by
  rcases har : discover_probe u sa (o.ping (t + 1)) with ⟨al, rt⟩
  have hrtal : rt ≠ none → al = true := by
    intro hrt
    have hh := discover_probe_rt_alive u sa (o.ping (t + 1))
    rw [har] at hh
    exact hh hrt
  unfold discover_step
  rw [har]
  by_cases hal : al = true
  · refine ⟨by simp [hal], by simp [hal], by simp [hal], by simp [hal], by simp [hal],
      by simp [hal], by simp [hal], by simp [hal], ?_,
      by simpa [hal] using emit_pu_snapshots _ _, by simp [hal]⟩
    exact ⟨{ ip := ip
             hostname := if rh = true then some (o.resolve ip) else none
             is_alive := al
             open_ports := []
             response_time := rt
             last_seen := o.now t },
      by simp [hal], rfl, fun _ => by simpa using hal, by simp [hal]⟩
  · refine ⟨by simp [hal], by simp [hal], by simp [hal], by simp [hal], by simp [hal],
      by simp [hal], by simp [hal], by simp [hal], ?_,
      by simpa [hal] using emit_pu_snapshots _ _, by simp [hal]⟩
    exact ⟨{ ip := ip
             hostname := none
             is_alive := al
             open_ports := []
             response_time := rt
             last_seen := o.now t },
      by simp [hal], rfl, fun hrt => hrtal hrt, by simp [hal]⟩

lemma discover_hosts_spec (u sa rh : Bool) (o : Oracle) :
    ∀ (ts : List String) (i t : ℕ) (st : ScannerState),
      st.progress.hosts_scanned ≤ i →
      sameTotals st.progress (discover_hosts u sa rh o ts i t st).1.progress ∧
      progressLE st.progress (discover_hosts u sa rh o ts i t st).1.progress ∧
      (discover_hosts u sa rh o ts i t st).1.progress.hosts_scanned ≤ i + ts.length ∧
      (discover_hosts u sa rh o ts i t st).1.progress.ports_scanned
        = st.progress.ports_scanned ∧
      (discover_hosts u sa rh o ts i t st).1.progress.open_ports_found
        = st.progress.open_ports_found ∧
      (discover_hosts u sa rh o ts i t st).1.running = st.running ∧
      (discover_hosts u sa rh o ts i t st).1.use_simulation = st.use_simulation ∧
      (∀ q ∈ progressSnapshots (discover_hosts u sa rh o ts i t st).2.1,
        progressLE st.progress q ∧
          progressLE q (discover_hosts u sa rh o ts i t st).1.progress ∧
          sameTotals st.progress q) ∧
      List.Pairwise progressLE (progressSnapshots (discover_hosts u sa rh o ts i t st).2.1) ∧
      completeCount (discover_hosts u sa rh o ts i t st).2.1 = 0 := by
  intro ts
  induction ts with
  | nil =>
    intro i t st hscan
    refine ⟨⟨rfl, rfl⟩, progressLE_refl _, ?_, rfl, rfl, rfl, rfl, ?_, ?_, rfl⟩
    · simpa using hscan
    · intro q hq; simp [discover_hosts] at hq
    · simp [discover_hosts]
  | cons ip rest ih =>
    intro i t st hscan
    unfold discover_hosts
    by_cases hstop : o.stop t
    · rw [if_pos hstop]
      refine ⟨⟨rfl, rfl⟩, progressLE_refl _, by simp only [List.length_cons]; omega,
        rfl, rfl, rfl, rfl, ?_, ?_, rfl⟩
      · intro q hq; simp at hq
      · simp
    · rw [if_neg hstop]
      obtain ⟨sT, sP, sS, sPS, sF, sO, sR, sU, _, sSnap, sC⟩ :=
        discover_step_spec u sa rh o ip i (t + 1) st
      rcases hst1 : discover_step u sa rh o ip i (t + 1) st with ⟨st1, evs1, t1⟩
      rw [hst1] at sT sP sS sPS sF sO sR sU sSnap sC
      simp only [] at sT sP sS sPS sF sO sR sU sSnap sC ⊢
      have hle1 : progressLE st.progress st1.progress :=
        ⟨by rw [sS]; omega, by rw [sPS], sF, by rw [sO]⟩
      have hsame1 : sameTotals st.progress st1.progress := ⟨sT.symm, sP.symm⟩
      obtain ⟨iT, iL, iS, iPS, iO, iR, iU, iSnap, iPair, iC⟩ :=
        ih (i + 1) t1 st1 (by rw [sS])
      rcases hr2 : discover_hosts u sa rh o rest (i + 1) t1 st1 with ⟨st2, evs2, t2⟩
      rw [hr2] at iT iL iS iPS iO iR iU iSnap iPair iC
      simp only [] at iT iL iS iPS iO iR iU iSnap iPair iC ⊢
      refine ⟨sameTotals_trans hsame1 iT, progressLE_trans hle1 iL, ?_, ?_, ?_, ?_, ?_,
        ?_, ?_, ?_⟩
      · simpa [Nat.add_comm, Nat.add_assoc, Nat.add_left_comm] using iS
      · rw [iPS, sPS]
      · rw [iO, sO]
      · rw [iR, sR]
      · rw [iU, sU]
      · intro q hq
        rw [progressSnapshots_append] at hq
        rcases List.mem_append.mp hq with hq1 | hq2
        · rcases sSnap with hnone | hone
          · rw [hnone] at hq1; simp at hq1
          · rw [hone] at hq1
            rcases List.mem_singleton.mp hq1 with rfl
            exact ⟨hle1, iL, hsame1⟩
        · obtain ⟨h1, h2, h3⟩ := iSnap q hq2
          exact ⟨progressLE_trans hle1 h1, h2, sameTotals_trans hsame1 h3⟩
      · rw [progressSnapshots_append]
        rw [List.pairwise_append]
        refine ⟨?_, iPair, ?_⟩
        · rcases sSnap with hnone | hone
          · rw [hnone]; simp
          · rw [hone]; simp
        · intro q1 hq1 q2 hq2
          rcases sSnap with hnone | hone
          · rw [hnone] at hq1; simp at hq1
          · rw [hone] at hq1
            rcases List.mem_singleton.mp hq1 with rfl
            exact (iSnap q2 hq2).1
      · rw [completeCount_append, sC, iC]

lemma discover_hosts_table (u sa rh : Bool) (o : Oracle) (P : HostInfo → Prop)
    (hP : ∀ h : HostInfo, h.open_ports = [] → (h.response_time ≠ none → h.is_alive = true) →
      P h) :
    ∀ (ts : List String) (i t : ℕ) (st : ScannerState), (∀ kv ∈ st.hosts, P kv.2) →
      (∀ kv ∈ (discover_hosts u sa rh o ts i t st).1.hosts, P kv.2) ∧
      (∀ h ∈ hostSnapshots (discover_hosts u sa rh o ts i t st).2.1, P h) := by
  intro ts
  induction ts with
  | nil =>
    intro i t st hst
    exact ⟨hst, by intro h hh; simp [discover_hosts] at hh⟩
  | cons ip rest ih =>
    intro i t st hst
    unfold discover_hosts
    by_cases hstop : o.stop t
    · rw [if_pos hstop]
      exact ⟨hst, by intro h hh; simp at hh⟩
    · rw [if_neg hstop]
      obtain ⟨_, _, _, _, _, _, _, _, ⟨h1, hins, hop, hrt, hsnap⟩, _, _⟩ :=
        discover_step_spec u sa rh o ip i (t + 1) st
      have hP1 : P h1 := hP h1 hop hrt
      rcases hst1 : discover_step u sa rh o ip i (t + 1) st with ⟨st1, evs1, t1⟩
      rw [hst1] at hins hsnap
      simp only [] at hins hsnap ⊢
      have hst1tab : ∀ kv ∈ st1.hosts, P kv.2 := by
        intro kv hkv
        rw [hins] at hkv
        rcases dict_insert_mem kv hkv with rfl | hmem
        · exact hP1
        · exact hst kv hmem
      obtain ⟨ih1, ih2⟩ := ih (i + 1) t1 st1 hst1tab
      rcases hr2 : discover_hosts u sa rh o rest (i + 1) t1 st1 with ⟨st2, evs2, t2⟩
      rw [hr2] at ih1 ih2
      simp only [] at ih1 ih2 ⊢
      refine ⟨ih1, ?_⟩
      intro h hh
      rw [hostSnapshots_append] at hh
      rcases List.mem_append.mp hh with h1m | h2m
      · rw [hsnap] at h1m
        rcases List.mem_singleton.mp h1m with rfl
        exact hP1
      · exact ih2 h h2m

lemma discover_hosts_keys (u sa rh : Bool) (o : Oracle) :
    ∀ (ts : List String) (i t : ℕ) (st : ScannerState),
      ((st.hosts.map Prod.fst).Nodup →
        (((discover_hosts u sa rh o ts i t st).1.hosts.map Prod.fst).Nodup)) ∧
      (∀ k ∈ (discover_hosts u sa rh o ts i t st).1.hosts.map Prod.fst,
        k ∈ st.hosts.map Prod.fst ∨ k ∈ ts) := by
  intro ts
  induction ts with
  | nil =>
    intro i t st
    exact ⟨fun h => h, fun k hk => Or.inl hk⟩
  | cons ip rest ih =>
    intro i t st
    unfold discover_hosts
    by_cases hstop : o.stop t
    · rw [if_pos hstop]
      exact ⟨fun h => h, fun k hk => Or.inl hk⟩
    · rw [if_neg hstop]
      obtain ⟨_, _, _, _, _, _, _, _, ⟨h1, hins, _, _, _⟩, _, _⟩ :=
        discover_step_spec u sa rh o ip i (t + 1) st
      rcases hst1 : discover_step u sa rh o ip i (t + 1) st with ⟨st1, evs1, t1⟩
      rw [hst1] at hins
      simp only [] at hins ⊢
      obtain ⟨ihNd, ihMem⟩ := ih (i + 1) t1 st1
      rcases hr2 : discover_hosts u sa rh o rest (i + 1) t1 st1 with ⟨st2, evs2, t2⟩
      rw [hr2] at ihNd ihMem
      simp only [] at ihNd ihMem ⊢
      constructor
      · intro hnd
        exact ihNd (by rw [hins]; exact dict_insert_keys_nodup hnd)
      · intro k hk
        rcases ihMem k hk with hmem | hmem
        · rw [hins] at hmem
          rcases @dict_insert_keys st.hosts ip h1 with he | he
          · rw [he] at hmem
            exact Or.inl hmem
          · rw [he] at hmem
            rcases List.mem_append.mp hmem with hm | hm
            · exact Or.inl hm
            · right
              simp at hm
              simp [hm]
        · right
          exact List.mem_cons_of_mem _ hmem

/-! ### Port-phase trace facts -/

lemma port_step_spec (u : Bool) (raw : PortRaw) (port : ℕ) (h : HostInfo)
    (p : ScanProgress) :
    (port_step u raw port h p).1.is_alive = h.is_alive ∧
    (port_step u raw port h p).1.response_time = h.response_time ∧
    (port_step u raw port h p).1.ip = h.ip ∧
    (∃ l, (port_step u raw port h p).1.open_ports = h.open_ports ++ l ∧
      l.Sublist [port]) ∧
    (port_step u raw port h p).2.1.ports_scanned = p.ports_scanned ∧
    (port_step u raw port h p).2.1.hosts_scanned = p.hosts_scanned ∧
    (port_step u raw port h p).2.1.hosts_found = p.hosts_found ∧
    (port_step u raw port h p).2.1.hosts_total = p.hosts_total ∧
    (port_step u raw port h p).2.1.ports_total = p.ports_total ∧
    p.open_ports_found ≤ (port_step u raw port h p).2.1.open_ports_found ∧
    (hostSnapshots (port_step u raw port h p).2.2 = [] ∨
      hostSnapshots (port_step u raw port h p).2.2 = [(port_step u raw port h p).1]) ∧
    progressSnapshots (port_step u raw port h p).2.2 = [] ∧
    completeCount (port_step u raw port h p).2.2 = 0 := by
  unfold port_step
  by_cases hopen : port_is_open u raw = true
  · refine ⟨by simp [hopen], by simp [hopen], by simp [hopen], ?_, by simp [hopen],
      by simp [hopen], by simp [hopen], by simp [hopen], by simp [hopen], by simp [hopen],
      by simp [hopen], by simp [hopen], by simp [hopen]⟩
    exact ⟨[port], by simp [hopen], List.Sublist.refl _⟩
  · refine ⟨by simp [hopen], by simp [hopen], by simp [hopen], ?_, by simp [hopen],
      by simp [hopen], by simp [hopen], by simp [hopen], by simp [hopen], by simp [hopen],
      by simp [hopen], by simp [hopen], by simp [hopen]⟩
    exact ⟨[], by simp [hopen], List.nil_sublist _⟩

lemma scan_ports_host_spec (u : Bool) (o : Oracle) :
    ∀ (ports : List ℕ) (scanned t : ℕ) (h : HostInfo) (p : ScanProgress)
      (h2 : HostInfo) (p2 : ScanProgress) (evs : List Event) (scanned2 t2 : ℕ),
      scan_ports_host u o ports scanned t h p = (h2, p2, evs, scanned2, t2) →
      p.ports_scanned = scanned →
      p2.ports_scanned = scanned2 ∧
      scanned ≤ scanned2 ∧
      scanned2 ≤ scanned + ports.length ∧
      progressLE p p2 ∧
      sameTotals p p2 ∧
      p2.hosts_scanned = p.hosts_scanned ∧
      p2.hosts_found = p.hosts_found ∧
      h2.is_alive = h.is_alive ∧
      h2.response_time = h.response_time ∧
      h2.ip = h.ip ∧
      (∃ l, h2.open_ports = h.open_ports ++ l ∧ l.Sublist ports) ∧
      (∀ q ∈ progressSnapshots evs, progressLE p q ∧ progressLE q p2 ∧ sameTotals p q) ∧
      List.Pairwise progressLE (progressSnapshots evs) ∧
      (∀ hs ∈ hostSnapshots evs, hs.is_alive = h.is_alive ∧
        ∃ l, hs.open_ports = h.open_ports ++ l ∧ l.Sublist ports) ∧
      completeCount evs = 0 := by
  intro ports
  induction ports with
  | nil =>
    intro scanned t h p h2 p2 evs scanned2 t2 heq hp
    unfold scan_ports_host at heq
    cases heq
    refine ⟨hp, le_refl _, by simp, progressLE_refl _, ⟨rfl, rfl⟩, rfl, rfl, rfl, rfl, rfl,
      ⟨[], by simp, List.nil_sublist _⟩, ?_, by simp, ?_, by simp⟩
    · intro q hq; simp at hq
    · intro hs hh; simp at hh
  | cons port rest ih =>
    intro scanned t h p h2 p2 evs scanned2 t2 heq hp
    unfold scan_ports_host at heq
    by_cases hstop : o.stop t
    · rw [if_pos hstop] at heq
      cases heq
      refine ⟨hp, le_refl _, by simp, progressLE_refl _, ⟨rfl, rfl⟩, rfl, rfl, rfl, rfl, rfl,
        ⟨[], by simp, List.nil_sublist _⟩, ?_, by simp, ?_, by simp⟩
      · intro q hq; simp at hq
      · intro hs hh; simp at hh
    · rw [if_neg hstop] at heq
      simp only [] at heq
      obtain ⟨psA, psR, psI, ⟨l0, psOp, psSub⟩, pmPS, pmHS, pmHF, pmHT, pmPT, pmOF,
          psHS, psPS, psCC⟩ :=
        port_step_spec u (o.port (t + 1)) port h { p with ports_scanned := scanned + 1 }
      rcases hps : port_step u (o.port (t + 1)) port h
          { p with ports_scanned := scanned + 1 } with ⟨X, pm, evH⟩
      rw [hps] at psA psR psI psOp pmPS pmHS pmHF pmHT pmPT pmOF psHS psPS psCC heq
      simp only [] at psA psR psI psOp pmPS pmHS pmHF pmHT pmPT pmOF psHS psPS psCC heq
      rcases hrec : scan_ports_host u o rest (scanned + 1) (t + 3) X
          (emit_progress_update pm (o.elapsedAt (t + 2))).1 with ⟨h3, p3, evs3, sc3, t3⟩
      rw [hrec] at heq
      simp only [] at heq
      cases heq
      have hpe : (emit_progress_update pm (o.elapsedAt (t + 2))).1.ports_scanned
          = scanned + 1 := by
        rw [emit_pu_ports_scanned]; exact pmPS
      obtain ⟨iPS, iLo, iHi, iLE, iST, iHS, iHF, iA, iR, iI, ⟨l, iOp, iSub⟩, iSnap, iPair,
          iHost, iCC⟩ :=
        ih (scanned + 1) (t + 3) X (emit_progress_update pm (o.elapsedAt (t + 2))).1
          h2 p2 evs3 scanned2 t2 hrec hpe
      have hLEpm : progressLE p pm :=
        ⟨le_of_eq pmHS.symm, by rw [hp, pmPS]; exact Nat.le_succ _, le_of_eq pmHF.symm, pmOF⟩
      have hSTpm : sameTotals p pm := ⟨pmHT.symm, pmPT.symm⟩
      have hLEpe : progressLE pm (emit_progress_update pm (o.elapsedAt (t + 2))).1 := by
        refine ⟨by simp, by simp, by simp, by simp⟩
      have hSTpe : sameTotals pm (emit_progress_update pm (o.elapsedAt (t + 2))).1 := by
        refine ⟨by simp, by simp⟩
      have hLEppe : progressLE p (emit_progress_update pm (o.elapsedAt (t + 2))).1 :=
        progressLE_trans hLEpm hLEpe
      have hSTppe : sameTotals p (emit_progress_update pm (o.elapsedAt (t + 2))).1 :=
        sameTotals_trans hSTpm hSTpe
      have hsubl : (l0 ++ l).Sublist (port :: rest) := by
        have := List.Sublist.append psSub iSub
        simpa using this
      refine ⟨iPS, by omega, by simp only [List.length_cons]; omega,
        progressLE_trans hLEppe iLE, sameTotals_trans hSTppe iST, ?_, ?_,
        iA.trans psA, iR.trans psR, iI.trans psI, ?_, ?_, ?_, ?_, ?_⟩
      · rw [iHS, emit_pu_hosts_scanned, pmHS]
      · rw [iHF, emit_pu_hosts_found, pmHF]
      · refine ⟨l0 ++ l, ?_, hsubl⟩
        rw [iOp, psOp, List.append_assoc]
      · intro q hq
        rw [progressSnapshots_append, progressSnapshots_append, psPS] at hq
        simp only [List.nil_append] at hq
        rcases List.mem_append.mp hq with hq1 | hq2
        · rcases emit_pu_snapshots pm (o.elapsedAt (t + 2)) with hnone | hone
          · rw [hnone] at hq1; simp at hq1
          · rw [hone] at hq1
            rcases List.mem_singleton.mp hq1 with rfl
            exact ⟨hLEppe, iLE, hSTppe⟩
        · obtain ⟨j1, j2, j3⟩ := iSnap q hq2
          exact ⟨progressLE_trans hLEppe j1, j2, sameTotals_trans hSTppe j3⟩
      · rw [progressSnapshots_append, progressSnapshots_append, psPS]
        simp only [List.nil_append]
        rw [List.pairwise_append]
        refine ⟨?_, iPair, ?_⟩
        · rcases emit_pu_snapshots pm (o.elapsedAt (t + 2)) with hnone | hone
          · rw [hnone]; simp
          · rw [hone]; simp
        · intro q1 hq1 q2 hq2
          rcases emit_pu_snapshots pm (o.elapsedAt (t + 2)) with hnone | hone
          · rw [hnone] at hq1; simp at hq1
          · rw [hone] at hq1
            rcases List.mem_singleton.mp hq1 with rfl
            exact (iSnap q2 hq2).1
      · intro hs hh
        rw [hostSnapshots_append, hostSnapshots_append, emit_pu_hostSnapshots] at hh
        simp only [List.append_nil] at hh
        rcases List.mem_append.mp hh with hh1 | hh2
        · rcases psHS with hnone | hone
          · rw [hnone] at hh1; simp at hh1
          · rw [hone] at hh1
            rcases List.mem_singleton.mp hh1 with rfl
            refine ⟨psA, l0, psOp, psSub.trans ?_⟩
            exact List.cons_sublist_cons.mpr (List.nil_sublist rest)
        · obtain ⟨j1, l2, j2, j3⟩ := iHost hs hh2
          refine ⟨j1.trans psA, l0 ++ l2, ?_, ?_⟩
          · rw [j2, psOp, List.append_assoc]
          · simpa using List.Sublist.append psSub j3
      · rw [completeCount_append, completeCount_append, psCC, emit_pu_completeCount, iCC]

lemma dict_find_mem {l : List (String × HostInfo)} {k : String} {v : HostInfo}
    (h : dict_find l k = some v) : (k, v) ∈ l := by
  unfold dict_find at h
  rcases hf : l.find? (fun kv => kv.1 = k) with _ | kv0
  · rw [hf] at h; simp at h
  · rw [hf] at h
    simp only [Option.map_some'] at h
    have hmem := List.mem_of_find?_eq_some hf
    have hkey := List.find?_some hf
    simp only [decide_eq_true_eq] at hkey
    have : (k, v) = kv0 := by
      rcases kv0 with ⟨a, b⟩
      simp only at hkey
      simp only [Option.some.injEq] at h
      rw [← hkey, ← h]
    rw [this]
    exact hmem

lemma scan_ports_spec (u : Bool) (o : Oracle) (ports : List ℕ) :
    ∀ (tgts : List String) (scanned t : ℕ) (st : ScannerState)
      (st2 : ScannerState) (evs : List Event) (t2 : ℕ) (err : Option String),
      scan_ports u o ports tgts scanned t st = (st2, evs, t2, err) →
      st.progress.ports_scanned = scanned →
      st2.progress.ports_scanned ≤ scanned + tgts.length * ports.length ∧
      progressLE st.progress st2.progress ∧
      sameTotals st.progress st2.progress ∧
      st2.progress.hosts_scanned = st.progress.hosts_scanned ∧
      st2.progress.hosts_found = st.progress.hosts_found ∧
      st2.running = st.running ∧
      st2.use_simulation = st.use_simulation ∧
      (∀ q ∈ progressSnapshots evs,
        progressLE st.progress q ∧ progressLE q st2.progress ∧ sameTotals st.progress q) ∧
      List.Pairwise progressLE (progressSnapshots evs) ∧
      completeCount evs = 0 := by
  intro tgts
  induction tgts with
  | nil =>
    intro scanned t st st2 evs t2 err heq hp
    unfold scan_ports at heq
    cases heq
    refine ⟨by simpa using hp.le, progressLE_refl _, ⟨rfl, rfl⟩, rfl, rfl, rfl, rfl, ?_,
      by simp, by simp⟩
    intro q hq; simp at hq
  | cons tgt rest ih =>
    intro scanned t st st2 evs t2 err heq hp
    unfold scan_ports at heq
    by_cases hstop : o.stop t
    · rw [if_pos hstop] at heq
      cases heq
      refine ⟨by rw [hp]; exact Nat.le_add_right _ _, progressLE_refl _, ⟨rfl, rfl⟩,
        rfl, rfl, rfl, rfl, ?_, by simp, by simp⟩
      intro q hq; simp at hq
    · rw [if_neg hstop] at heq
      simp only [] at heq
      rcases hfind : dict_find st.hosts tgt with _ | h
      · rw [hfind] at heq
        simp only [] at heq
        cases heq
        refine ⟨by rw [hp]; exact Nat.le_add_right _ _, progressLE_refl _, ⟨rfl, rfl⟩,
          rfl, rfl, rfl, rfl, ?_, by simp, by simp⟩
        intro q hq; simp at hq
      · rw [hfind] at heq
        simp only [] at heq
        rcases hinner : scan_ports_host u o ports scanned (t + 1) h
            { st.progress with current_target := tgt ++ ":ports" }
          with ⟨h1, p1, evs1, scanned1, t1⟩
        rw [hinner] at heq
        simp only [] at heq
        obtain ⟨jPS, jLo, jHi, jLE, jST, jHS, jHF, _, _, _, _, jSnap, jPair, _, jCC⟩ :=
          scan_ports_host_spec u o ports scanned (t + 1) h
            { st.progress with current_target := tgt ++ ":ports" }
            h1 p1 evs1 scanned1 t1 hinner (by simpa using hp)
        rcases hrec : scan_ports u o ports rest scanned1 t1
            { st with hosts := dict_insert st.hosts tgt h1, progress := p1 }
          with ⟨st3, evs3, t3, err3⟩
        rw [hrec] at heq
        simp only [] at heq
        cases heq
        obtain ⟨kHi, kLE, kST, kHS, kHF, kR, kU, kSnap, kPair, kCC⟩ :=
          ih scanned1 t1 _ st2 evs3 t2 err hrec (by simpa using jPS)
        have hLEst : progressLE st.progress p1 := by
          refine progressLE_trans ?_ jLE
          exact ⟨le_refl _, le_refl _, le_refl _, le_refl _⟩
        have hSTst : sameTotals st.progress p1 := by
          refine sameTotals_trans ?_ jST
          exact ⟨rfl, rfl⟩
        refine ⟨?_, progressLE_trans hLEst kLE, sameTotals_trans hSTst kST, ?_, ?_,
          by simpa using kR, by simpa using kU, ?_, ?_, ?_⟩
        · rw [List.length_cons, Nat.succ_mul]
          omega
        · simp only [] at kHS
          rw [kHS, jHS]
        · simp only [] at kHF
          rw [kHF, jHF]
        · intro q hq
          rw [progressSnapshots_append] at hq
          rcases List.mem_append.mp hq with hq1 | hq2
          · obtain ⟨m1, m2, m3⟩ := jSnap q hq1
            have m1' : progressLE st.progress q := by
              refine progressLE_trans ?_ m1
              exact ⟨le_refl _, le_refl _, le_refl _, le_refl _⟩
            have m3' : sameTotals st.progress q := by
              refine sameTotals_trans ?_ m3
              exact ⟨rfl, rfl⟩
            exact ⟨m1', progressLE_trans (progressLE_trans m2 (by exact ⟨le_refl _,
              le_refl _, le_refl _, le_refl _⟩)) kLE, m3'⟩
          · obtain ⟨m1, m2, m3⟩ := kSnap q hq2
            exact ⟨progressLE_trans hLEst m1, m2, sameTotals_trans hSTst m3⟩
        · rw [progressSnapshots_append, List.pairwise_append]
          refine ⟨jPair, kPair, ?_⟩
          intro q1 hq1 q2 hq2
          obtain ⟨_, m2, _⟩ := jSnap q1 hq1
          obtain ⟨n1, _, _⟩ := kSnap q2 hq2
          exact progressLE_trans m2 (progressLE_trans (by exact ⟨le_refl _, le_refl _,
            le_refl _, le_refl _⟩) n1)
        · rw [completeCount_append, jCC, kCC]

lemma scan_ports_table (u : Bool) (o : Oracle) (ports : List ℕ) :
    ∀ (tgts : List String) (scanned t : ℕ) (st : ScannerState)
      (st2 : ScannerState) (evs : List Event) (t2 : ℕ) (err : Option String),
      scan_ports u o ports tgts scanned t st = (st2, evs, t2, err) →
      st.progress.ports_scanned = scanned →
      tgts.Nodup →
      (∀ k, k ∉ tgts → dict_find st2.hosts k = dict_find st.hosts k) ∧
      (∀ k hh2, dict_find st2.hosts k = some hh2 →
        ∃ hh l, dict_find st.hosts k = some hh ∧
          hh2.is_alive = hh.is_alive ∧ hh2.response_time = hh.response_time ∧
          hh2.open_ports = hh.open_ports ++ l ∧ l.Sublist ports ∧
          (l ≠ [] → k ∈ tgts)) ∧
      (∀ hs ∈ hostSnapshots evs, ∃ k hh l, k ∈ tgts ∧ dict_find st.hosts k = some hh ∧
        hs.is_alive = hh.is_alive ∧ hs.open_ports = hh.open_ports ++ l ∧
        l.Sublist ports) := by
  intro tgts
  induction tgts with
  | nil =>
    intro scanned t st st2 evs t2 err heq hp hnd
    unfold scan_ports at heq
    cases heq
    refine ⟨fun k _ => rfl, ?_, ?_⟩
    · intro k hh2 hfind
      exact ⟨hh2, [], by simpa using hfind, rfl, rfl, by simp, List.nil_sublist _,
        fun hl => absurd rfl hl⟩
    · intro hs hh; simp at hh
  | cons tgt rest ih =>
    intro scanned t st st2 evs t2 err heq hp hnd
    have hndr : rest.Nodup := (List.nodup_cons.mp hnd).2
    have htgtr : tgt ∉ rest := (List.nodup_cons.mp hnd).1
    unfold scan_ports at heq
    by_cases hstop : o.stop t
    · rw [if_pos hstop] at heq
      cases heq
      refine ⟨fun k _ => rfl, ?_, ?_⟩
      · intro k hh2 hfind
        exact ⟨hh2, [], by simpa using hfind, rfl, rfl, by simp, List.nil_sublist _,
          fun hl => absurd rfl hl⟩
      · intro hs hh; simp at hh
    · rw [if_neg hstop] at heq
      simp only [] at heq
      rcases hfind : dict_find st.hosts tgt with _ | h
      · rw [hfind] at heq
        simp only [] at heq
        cases heq
        refine ⟨fun k _ => rfl, ?_, ?_⟩
        · intro k hh2 hfind2
          exact ⟨hh2, [], by simpa using hfind2, rfl, rfl, by simp, List.nil_sublist _,
            fun hl => absurd rfl hl⟩
        · intro hs hh; simp at hh
      · rw [hfind] at heq
        simp only [] at heq
        rcases hinner : scan_ports_host u o ports scanned (t + 1) h
            { st.progress with current_target := tgt ++ ":ports" }
          with ⟨h1, p1, evs1, scanned1, t1⟩
        rw [hinner] at heq
        simp only [] at heq
        obtain ⟨jPS, _, _, _, _, _, _, jA, jR, _, ⟨l, jOp, jSub⟩, _, _, jHost, _⟩ :=
          scan_ports_host_spec u o ports scanned (t + 1) h
            { st.progress with current_target := tgt ++ ":ports" }
            h1 p1 evs1 scanned1 t1 hinner (by simpa using hp)
        rcases hrec : scan_ports u o ports rest scanned1 t1
            { st with hosts := dict_insert st.hosts tgt h1, progress := p1 }
          with ⟨st3, evs3, t3, err3⟩
        rw [hrec] at heq
        simp only [] at heq
        cases heq
        obtain ⟨kOut, kTab, kSnap⟩ :=
          ih scanned1 t1 _ st2 evs3 t2 err hrec (by simpa using jPS) hndr
        simp only [] at kOut kTab kSnap
        have hfind1 : ∀ k2, dict_find (dict_insert st.hosts tgt h1) k2
            = if k2 = tgt then some h1 else dict_find st.hosts k2 :=
          fun k2 => dict_find_insert st.hosts tgt k2 h1
        refine ⟨?_, ?_, ?_⟩
        · intro k hk
          have hk1 : k ∉ rest := fun hm => hk (List.mem_cons_of_mem _ hm)
          have hk2 : k ≠ tgt := fun he => hk (he ▸ List.mem_cons_self _ _)
          rw [kOut k hk1, hfind1 k, if_neg hk2]
        · intro k hh2 hfind2
          by_cases hk : k = tgt
          · subst hk
            rw [kOut k htgtr, hfind1 k, if_pos rfl] at hfind2
            rcases Option.some.injEq .. ▸ hfind2 with rfl
            exact ⟨h, l, hfind, jA, jR, jOp, jSub,
              fun _ => List.mem_cons_self _ _⟩
          · obtain ⟨hh1, l2, hf1, m1, m2, m3, m4, m5⟩ := kTab k hh2 hfind2
            rw [hfind1 k, if_neg hk] at hf1
            exact ⟨hh1, l2, hf1, m1, m2, m3, m4,
              fun hl => List.mem_cons_of_mem _ (m5 hl)⟩
        · intro hs hh
          rw [hostSnapshots_append] at hh
          rcases List.mem_append.mp hh with hh1 | hh2
          · obtain ⟨m1, l3, m2, m3⟩ := jHost hs hh1
            exact ⟨tgt, h, l3, List.mem_cons_self _ _, hfind, m1, m2, m3⟩
          · obtain ⟨k, hh1, l3, mk, mf, m1, m2, m3⟩ := kSnap hs hh2
            have hk : k ≠ tgt := fun he => htgtr (he ▸ mk)
            rw [hfind1 k, if_neg hk] at mf
            exact ⟨k, hh1, l3, List.mem_cons_of_mem _ mk, mf, m1, m2, m3⟩

/-! ### Worker-level trace facts -/

lemma dict_insert_keys_found {l : List (String × HostInfo)} {k : String} {v0 v : HostInfo}
    (h : dict_find l k = some v0) :
    (dict_insert l k v).map Prod.fst = l.map Prod.fst := by
  have hany : l.any (fun kv => kv.1 = k) = true := by
    unfold dict_find at h
    rcases hf : l.find? (fun kv => kv.1 = k) with _ | kv0
    · rw [hf] at h; simp at h
    · have hmem := List.mem_of_find?_eq_some hf
      have hkey := List.find?_some hf
      exact List.any_eq_true.mpr ⟨kv0, hmem, hkey⟩
  unfold dict_insert
  rw [if_pos hany]
  rw [List.map_map]
  apply List.map_congr_left
  intro kv _
  by_cases hk : kv.1 = k <;> simp [hk]

lemma dict_find_of_mem_nodup {l : List (String × HostInfo)} {k : String} {v : HostInfo}
    (hnd : (l.map Prod.fst).Nodup) (hmem : (k, v) ∈ l) : dict_find l k = some v := by
  induction l with
  | nil => simp at hmem
  | cons kv rest ih =>
    rcases List.mem_cons.mp hmem with rfl | hmem2
    · unfold dict_find
      simp [List.find?_cons]
    · have hk : kv.1 ≠ k := by
        intro he
        have : k ∈ rest.map Prod.fst := List.mem_map.mpr ⟨(k, v), hmem2, rfl⟩
        rw [← he] at this
        exact (List.nodup_cons.mp (by simpa using hnd)).1 this
      unfold dict_find
      rw [List.find?_cons]
      simp only [decide_eq_false hk]
      exact ih (List.nodup_cons.mp (by simpa using hnd)).2 hmem2

lemma scan_ports_keys (u : Bool) (o : Oracle) (ports : List ℕ) :
    ∀ (tgts : List String) (scanned t : ℕ) (st : ScannerState)
      (st2 : ScannerState) (evs : List Event) (t2 : ℕ) (err : Option String),
      scan_ports u o ports tgts scanned t st = (st2, evs, t2, err) →
      st2.hosts.map Prod.fst = st.hosts.map Prod.fst := by
  intro tgts
  induction tgts with
  | nil =>
    intro scanned t st st2 evs t2 err heq
    unfold scan_ports at heq
    cases heq
    rfl
  | cons tgt rest ih =>
    intro scanned t st st2 evs t2 err heq
    unfold scan_ports at heq
    by_cases hstop : o.stop t
    · rw [if_pos hstop] at heq; cases heq; rfl
    · rw [if_neg hstop] at heq
      simp only [] at heq
      rcases hfind : dict_find st.hosts tgt with _ | h
      · rw [hfind] at heq
        simp only [] at heq
        cases heq
        rfl
      · rw [hfind] at heq
        simp only [] at heq
        rcases hinner : scan_ports_host u o ports scanned (t + 1) h
            { st.progress with current_target := tgt ++ ":ports" }
          with ⟨h1, p1, evs1, scanned1, t1⟩
        rw [hinner] at heq
        simp only [] at heq
        rcases hrec : scan_ports u o ports rest scanned1 t1
            { st with hosts := dict_insert st.hosts tgt h1, progress := p1 }
          with ⟨st3, evs3, t3, err3⟩
        rw [hrec] at heq
        simp only [] at heq
        cases heq
        have := ih scanned1 t1 _ st2 evs3 t2 err hrec
        simp only [] at this
        rw [this]
        exact dict_insert_keys_found hfind

lemma discover_hosts_cc (u sa rh : Bool) (o : Oracle) :
    ∀ (ts : List String) (i t : ℕ) (st : ScannerState),
      completeCount (discover_hosts u sa rh o ts i t st).2.1 = 0 := by
  intro ts
  induction ts with
  | nil => intro i t st; simp [discover_hosts]
  | cons ip rest ih =>
    intro i t st
    unfold discover_hosts
    by_cases hstop : o.stop t
    · rw [if_pos hstop]; simp
    · rw [if_neg hstop]
      obtain ⟨_, _, _, _, _, _, _, _, _, _, sC⟩ := discover_step_spec u sa rh o ip i (t + 1) st
      rcases hst1 : discover_step u sa rh o ip i (t + 1) st with ⟨st1, evs1, t1⟩
      rw [hst1] at sC
      simp only [] at sC ⊢
      rcases hr2 : discover_hosts u sa rh o rest (i + 1) t1 st1 with ⟨st2, evs2, t2⟩
      have := ih (i + 1) t1 st1
      rw [hr2] at this
      simp only [] at this ⊢
      rw [completeCount_append, sC, this]

lemma scan_ports_host_cc (u : Bool) (o : Oracle) :
    ∀ (ports : List ℕ) (scanned t : ℕ) (h : HostInfo) (p : ScanProgress),
      completeCount (scan_ports_host u o ports scanned t h p).2.2.1 = 0 := by
  intro ports
  induction ports with
  | nil => intro scanned t h p; simp [scan_ports_host]
  | cons port rest ih =>
    intro scanned t h p
    unfold scan_ports_host
    by_cases hstop : o.stop t
    · rw [if_pos hstop]; simp
    · rw [if_neg hstop]
      simp only []
      obtain ⟨_, _, _, _, _, _, _, _, _, _, _, _, psCC⟩ :=
        port_step_spec u (o.port (t + 1)) port h { p with ports_scanned := scanned + 1 }
      rcases hps : port_step u (o.port (t + 1)) port h
          { p with ports_scanned := scanned + 1 } with ⟨X, pm, evH⟩
      rw [hps] at psCC
      simp only [] at psCC ⊢
      rcases hrec : scan_ports_host u o rest (scanned + 1) (t + 3) X
          (emit_progress_update pm (o.elapsedAt (t + 2))).1 with ⟨h3, p3, evs3, sc3, t3⟩
      have := ih (scanned + 1) (t + 3) X (emit_progress_update pm (o.elapsedAt (t + 2))).1
      rw [hrec] at this
      simp only [] at this ⊢
      rw [completeCount_append, completeCount_append, psCC, emit_pu_completeCount, this]

lemma scan_ports_cc (u : Bool) (o : Oracle) (ports : List ℕ) :
    ∀ (tgts : List String) (scanned t : ℕ) (st : ScannerState),
      completeCount (scan_ports u o ports tgts scanned t st).2.1 = 0 := by
  intro tgts
  induction tgts with
  | nil => intro scanned t st; simp [scan_ports]
  | cons tgt rest ih =>
    intro scanned t st
    unfold scan_ports
    by_cases hstop : o.stop t
    · rw [if_pos hstop]; simp
    · rw [if_neg hstop]
      simp only []
      rcases hfind : dict_find st.hosts tgt with _ | h
      · simp
      · simp only []
        rcases hinner : scan_ports_host u o ports scanned (t + 1) h
            { st.progress with current_target := tgt ++ ":ports" }
          with ⟨h1, p1, evs1, scanned1, t1⟩
        have hin := scan_ports_host_cc u o ports scanned (t + 1) h
          { st.progress with current_target := tgt ++ ":ports" }
        rw [hinner] at hin
        simp only [] at hin
        rcases hrec : scan_ports u o ports rest scanned1 t1
            { st with hosts := dict_insert st.hosts tgt h1, progress := p1 }
          with ⟨st3, evs3, t3, err3⟩
        have hre := ih scanned1 t1
          { st with hosts := dict_insert st.hosts tgt h1, progress := p1 }
        rw [hrec] at hre
        simp only [] at hre ⊢
        rw [completeCount_append, hin, hre]

lemma scan_worker_shape (u sa rh : Bool) (o : Oracle) (targets : List String)
    (ports : List ℕ) (fault : Option String) (st : ScannerState) :
    completeCount (scan_worker u sa rh o targets ports fault st).2 = 1 ∧
    (scan_worker u sa rh o targets ports fault st).2.getLast? = some Event.scanComplete ∧
    (scan_worker u sa rh o targets ports fault st).1.running = false ∧
    (scan_worker u sa rh o targets ports fault st).1.progress.is_running = false := by
  unfold scan_worker
  rcases hd : discover_hosts u sa rh o targets 0 0 st with ⟨st1, evs1, t1⟩
  have hdcc := discover_hosts_cc u sa rh o targets 0 0 st
  rw [hd] at hdcc
  simp only [] at hdcc ⊢
  by_cases hstop : o.stop t1
  · rw [if_pos hstop]
    try simp only []
    refine ⟨?_, ?_, ?_, ?_⟩
    · cases fault <;>
        simp only [completeCount_append, hdcc, completeCount_cons_error, completeCount_nil,
          emit_pu_completeCount, completeCount_cons_complete]
    · cases fault <;> exact List.getLast?_concat _
    · trivial
    · simp
  · rw [if_neg hstop]
    try simp only []
    by_cases hempty : ((st1.hosts.filter (fun kv => kv.2.is_alive)).map (·.1)).isEmpty
        || ports.isEmpty
    · rw [if_pos hempty]
      try simp only []
      refine ⟨?_, ?_, ?_, ?_⟩
      · cases fault <;>
          simp only [completeCount_append, hdcc, completeCount_cons_error, completeCount_nil,
            emit_pu_completeCount, completeCount_cons_complete]
      · cases fault <;> exact List.getLast?_concat _
      · trivial
      · simp
    · rw [if_neg hempty]
      rcases hsp : scan_ports u o ports
          ((st1.hosts.filter (fun kv => kv.2.is_alive)).map (·.1)) 0 (t1 + 1) st1
        with ⟨st2, evs2, t2, e2⟩
      have hpcc := scan_ports_cc u o ports
        ((st1.hosts.filter (fun kv => kv.2.is_alive)).map (·.1)) 0 (t1 + 1) st1
      rw [hsp] at hpcc
      simp only [] at hpcc ⊢
      refine ⟨?_, ?_, ?_, ?_⟩
      · cases fault <;> cases e2 <;>
          simp only [completeCount_append, hdcc, hpcc, completeCount_cons_error,
            completeCount_nil, emit_pu_completeCount, completeCount_cons_complete]
      · cases fault <;> cases e2 <;> exact List.getLast?_concat _
      · trivial
      · simp

lemma stop_scan_no_complete (st : ScannerState) (e : ℚ) :
    completeCount (stop_scan st e).2 = 0 := by
  unfold stop_scan
  by_cases hr : st.running
  · rw [if_pos hr]
    simp
  · rw [if_neg hr]
    simp

/-- C7: for every worker run — normal completion, cooperative cancellation
under any stop schedule, or an injected unhandled internal error — the
`finally` block runs exactly once: the trace contains exactly one completion
event, it is the last event, and both the running flag and the progress
`is_running` flag are already false in the state in which it is emitted;
`stop_scan` itself never emits a completion event, so a session that entered
Running fires the completion event exactly once. -/
theorem c7_completion_fires_exactly_once :
    (∀ (useSim scapyAvail resolveH : Bool) (o : Oracle) (targets : List String)
      (ports : List ℕ) (fault : Option String) (st : ScannerState),
      completeCount (scan_worker useSim scapyAvail resolveH o targets ports fault st).2
          = 1 ∧
        (scan_worker useSim scapyAvail resolveH o targets ports fault st).2.getLast?
          = some Event.scanComplete ∧
        (scan_worker useSim scapyAvail resolveH o targets ports fault st).1.running
          = false ∧
        (scan_worker useSim scapyAvail resolveH o
            targets ports fault st).1.progress.is_running = false) ∧
    (∀ (st : ScannerState) (e : ℚ), completeCount (stop_scan st e).2 = 0) :=
  ⟨fun u sa rh o targets ports fault st => scan_worker_shape u sa rh o targets ports fault st,
    fun st e => stop_scan_no_complete st e⟩

lemma scan_worker_progress (u sa rh : Bool) (o : Oracle) (targets : List String)
    (ports : List ℕ) (fault : Option String) (st : ScannerState)
    (hhs : st.progress.hosts_scanned = 0)
    (hps : st.progress.ports_scanned = 0)
    (hht : st.progress.hosts_total = targets.length)
    (hpt : st.progress.ports_total = ports.length * targets.length)
    (hhosts : st.hosts = []) :
    (∀ q ∈ progressSnapshots (scan_worker u sa rh o targets ports fault st).2,
      q.hosts_scanned ≤ q.hosts_total ∧ q.ports_scanned ≤ q.ports_total ∧
        q.hosts_total = st.progress.hosts_total ∧
        q.ports_total = st.progress.ports_total) ∧
    List.Pairwise progressLE
      (progressSnapshots (scan_worker u sa rh o targets ports fault st).2) := by
  unfold scan_worker
  rcases hd : discover_hosts u sa rh o targets 0 0 st with ⟨st1, evs1, t1⟩
  obtain ⟨dST, dLE, dHS, dPS, dOF, dR, dU, dSnap, dPair, dCC⟩ :=
    discover_hosts_spec u sa rh o targets 0 0 st (le_of_eq hhs)
  rw [hd] at dST dLE dHS dPS dOF dR dU dSnap dPair dCC
  simp only [] at dST dLE dHS dPS dOF dR dU dSnap dPair dCC ⊢
  have hfin1_hs : st1.progress.hosts_scanned ≤ st1.progress.hosts_total := by
    rw [← dST.1, hht]
    simpa using dHS
  have hfin1_ps : st1.progress.ports_scanned ≤ st1.progress.ports_total := by
    rw [dPS, hps]
    exact Nat.zero_le _
  have hdq : ∀ q ∈ progressSnapshots evs1,
      q.hosts_scanned ≤ q.hosts_total ∧ q.ports_scanned ≤ q.ports_total ∧
      q.hosts_total = st.progress.hosts_total ∧ q.ports_total = st.progress.ports_total := by
    intro q hq
    obtain ⟨q1, q2, q3⟩ := dSnap q hq
    refine ⟨?_, ?_, q3.1.symm, q3.2.symm⟩
    · calc q.hosts_scanned ≤ st1.progress.hosts_scanned := q2.1
        _ ≤ st1.progress.hosts_total := hfin1_hs
        _ = q.hosts_total := by rw [← dST.1, ← q3.1]
    · calc q.ports_scanned ≤ st1.progress.ports_scanned := q2.2.1
        _ ≤ st1.progress.ports_total := hfin1_ps
        _ = q.ports_total := by rw [← dST.2, ← q3.2]
  have herrsnap : ∀ err2 : Option String,
      progressSnapshots (match err2 with
        | some m => [Event.error ("Błąd podczas skanowania: " ++ m)]
        | none => ([] : List Event)) = [] := by
    intro err2; cases err2 <;> simp
  by_cases hstop : o.stop t1
  · rw [if_pos hstop]
    simp only []
    constructor
    · intro q hq
      rw [progressSnapshots_append, progressSnapshots_append, progressSnapshots_append] at hq
      rcases fault with _ | m <;>
        simp only [progressSnapshots_cons_error, progressSnapshots_nil, List.append_nil,
          List.nil_append, progressSnapshots_cons_complete] at hq <;>
      · rcases List.mem_append.mp hq with hq1 | hq2
        · exact hdq q hq1
        · rcases emit_pu_snapshots _ _ with hnone | hone
          · rw [hnone] at hq2; simp at hq2
          · rw [hone] at hq2
            rcases List.mem_singleton.mp hq2 with rfl
            refine ⟨?_, ?_, ?_, ?_⟩ <;>
              simp [hfin1_hs, hfin1_ps, dST.1, dST.2]
    · rw [progressSnapshots_append, progressSnapshots_append, progressSnapshots_append]
      rcases fault with _ | m <;>
        simp only [progressSnapshots_cons_error, progressSnapshots_nil, List.append_nil,
          List.nil_append, progressSnapshots_cons_complete] <;>
      · rw [List.pairwise_append]
        refine ⟨dPair, ?_, ?_⟩
        · rcases emit_pu_snapshots _ _ with hnone | hone
          · rw [hnone]; simp
          · rw [hone]; simp
        · intro q1 hq1 q2 hq2
          rcases emit_pu_snapshots _ _ with hnone | hone
          · rw [hnone] at hq2; simp at hq2
          · rw [hone] at hq2
            rcases List.mem_singleton.mp hq2 with rfl
            obtain ⟨_, q2le, _⟩ := dSnap q1 hq1
            exact ⟨by simpa using q2le.1, by simpa using q2le.2.1,
              by simpa using q2le.2.2.1, by simpa using q2le.2.2.2⟩
  · rw [if_neg hstop]
    try simp only []
    by_cases hempty : ((st1.hosts.filter (fun kv => kv.2.is_alive)).map (·.1)).isEmpty
        || ports.isEmpty
    · rw [if_pos hempty]
      try simp only []
      constructor
      · intro q hq
        rw [progressSnapshots_append, progressSnapshots_append,
          progressSnapshots_append] at hq
        rcases fault with _ | m <;>
          simp only [progressSnapshots_cons_error, progressSnapshots_nil, List.append_nil,
            List.nil_append, progressSnapshots_cons_complete] at hq <;>
        · rcases List.mem_append.mp hq with hq1 | hq2
          · exact hdq q hq1
          · rcases emit_pu_snapshots _ _ with hnone | hone
            · rw [hnone] at hq2; simp at hq2
            · rw [hone] at hq2
              rcases List.mem_singleton.mp hq2 with rfl
              refine ⟨?_, ?_, ?_, ?_⟩ <;>
                simp [hfin1_hs, hfin1_ps, dST.1, dST.2]
      · rw [progressSnapshots_append, progressSnapshots_append, progressSnapshots_append]
        rcases fault with _ | m <;>
          simp only [progressSnapshots_cons_error, progressSnapshots_nil, List.append_nil,
            List.nil_append, progressSnapshots_cons_complete] <;>
        · rw [List.pairwise_append]
          refine ⟨dPair, ?_, ?_⟩
          · rcases emit_pu_snapshots _ _ with hnone | hone
            · rw [hnone]; simp
            · rw [hone]; simp
          · intro q1 hq1 q2 hq2
            rcases emit_pu_snapshots _ _ with hnone | hone
            · rw [hnone] at hq2; simp at hq2
            · rw [hone] at hq2
              rcases List.mem_singleton.mp hq2 with rfl
              obtain ⟨_, q2le, _⟩ := dSnap q1 hq1
              exact ⟨by simpa using q2le.1, by simpa using q2le.2.1,
                by simpa using q2le.2.2.1, by simpa using q2le.2.2.2⟩
    · rw [if_neg hempty]
      rcases hsp : scan_ports u o ports
          ((st1.hosts.filter (fun kv => kv.2.is_alive)).map (·.1)) 0 (t1 + 1) st1
        with ⟨st2, evs2, t2, e2⟩
      obtain ⟨pHi, pLE, pST, pHS, pHF, pR, pU, pSnap, pPair, pCC⟩ :=
        scan_ports_spec u o ports ((st1.hosts.filter (fun kv => kv.2.is_alive)).map (·.1))
          0 (t1 + 1) st1 st2 evs2 t2 e2 hsp (by rw [dPS, hps])
      have hkeynd : (st1.hosts.map Prod.fst).Nodup := by
        have := (discover_hosts_keys u sa rh o targets 0 0 st).1
        rw [hd] at this
        exact this (by rw [hhosts]; exact List.nodup_nil)
      have hkeysub : ∀ k ∈ st1.hosts.map Prod.fst, k ∈ targets := by
        intro k hk
        have := (discover_hosts_keys u sa rh o targets 0 0 st).2 k
        rw [hd] at this
        rcases this hk with hmem | hmem
        · rw [hhosts] at hmem; simp at hmem
        · exact hmem
      have hklen : (st1.hosts.map Prod.fst).length ≤ targets.length :=
        (List.subperm_of_subset hkeynd hkeysub).length_le
      have hAlen : ((st1.hosts.filter (fun kv => kv.2.is_alive)).map (·.1)).length
          ≤ targets.length := by
        have hsub : ((st1.hosts.filter (fun kv => kv.2.is_alive)).map (·.1)).Sublist
            (st1.hosts.map Prod.fst) := (List.filter_sublist _).map _
        exact hsub.length_le.trans hklen
      have hst2_ps : st2.progress.ports_scanned ≤ st2.progress.ports_total := by
        have h1 : st2.progress.ports_scanned
            ≤ ((st1.hosts.filter (fun kv => kv.2.is_alive)).map (·.1)).length
              * ports.length := by simpa using pHi
        have h2 : st2.progress.ports_total = ports.length * targets.length := by
          rw [← pST.2, ← dST.2, hpt]
        rw [h2, Nat.mul_comm]
        exact h1.trans (Nat.mul_le_mul_right _ hAlen)
      have hst2_hs : st2.progress.hosts_scanned ≤ st2.progress.hosts_total := by
        rw [pHS, ← pST.1]
        exact hfin1_hs
      have hpq : ∀ q ∈ progressSnapshots evs2,
          q.hosts_scanned ≤ q.hosts_total ∧ q.ports_scanned ≤ q.ports_total ∧
          q.hosts_total = st.progress.hosts_total ∧
          q.ports_total = st.progress.ports_total := by
        intro q hq
        obtain ⟨q1, q2, q3⟩ := pSnap q hq
        have hqt : q.hosts_total = st1.progress.hosts_total := q3.1.symm
        have hqp : q.ports_total = st1.progress.ports_total := q3.2.symm
        refine ⟨?_, ?_, by rw [hqt, ← dST.1], by rw [hqp, ← dST.2]⟩
        · calc q.hosts_scanned ≤ st2.progress.hosts_scanned := q2.1
            _ ≤ st2.progress.hosts_total := hst2_hs
            _ = q.hosts_total := by rw [← pST.1, ← q3.1]
        · calc q.ports_scanned ≤ st2.progress.ports_scanned := q2.2.1
            _ ≤ st2.progress.ports_total := hst2_ps
            _ = q.ports_total := by rw [← pST.2, ← q3.2]
      constructor
      · intro q hq
        rw [progressSnapshots_append, progressSnapshots_append, progressSnapshots_append,
          progressSnapshots_append] at hq
        rcases fault with _ | m <;> rcases e2 with _ | m2 <;>
          simp only [progressSnapshots_cons_error, progressSnapshots_nil, List.append_nil,
            List.nil_append, progressSnapshots_cons_complete] at hq <;>
        · rcases List.mem_append.mp hq with hq12 | hq3
          · rcases List.mem_append.mp hq12 with hq1 | hq2
            · exact hdq q hq1
            · exact hpq q hq2
          · rcases emit_pu_snapshots _ _ with hnone | hone
            · rw [hnone] at hq3; simp at hq3
            · rw [hone] at hq3
              rcases List.mem_singleton.mp hq3 with rfl
              refine ⟨?_, ?_, ?_, ?_⟩ <;>
                simp [hst2_hs, hst2_ps, pST.1, pST.2, dST.1, dST.2]
      · rw [progressSnapshots_append, progressSnapshots_append, progressSnapshots_append,
          progressSnapshots_append]
        rcases fault with _ | m <;> rcases e2 with _ | m2 <;>
          simp only [progressSnapshots_cons_error, progressSnapshots_nil, List.append_nil,
            List.nil_append, progressSnapshots_cons_complete] <;>
        · rw [List.pairwise_append, List.pairwise_append]
          refine ⟨⟨dPair, pPair, ?_⟩, ?_, ?_⟩
          · intro q1 hq1 q2 hq2
            obtain ⟨_, q1le, _⟩ := dSnap q1 hq1
            obtain ⟨q2ge, _, _⟩ := pSnap q2 hq2
            exact progressLE_trans q1le q2ge
          · rcases emit_pu_snapshots _ _ with hnone | hone
            · rw [hnone]; simp
            · rw [hone]; simp
          · intro q1 hq1 q2 hq2
            rcases emit_pu_snapshots _ _ with hnone | hone
            · rw [hnone] at hq2; simp at hq2
            · rw [hone] at hq2
              rcases List.mem_singleton.mp hq2 with rfl
              have hq1le : progressLE q1 st2.progress := by
                rcases List.mem_append.mp hq1 with hq1d | hq1p
                · obtain ⟨_, q1le, _⟩ := dSnap q1 hq1d
                  exact progressLE_trans q1le pLE
                · exact (pSnap q1 hq1p).2.1
              exact ⟨by simpa using hq1le.1, by simpa using hq1le.2.1,
                by simpa using hq1le.2.2.1, by simpa using hq1le.2.2.2⟩

lemma expand_spec_events (s : String) :
    (expand_spec s).2 = [] ∨
      (expand_spec s).2 = [Event.error ("Błędny zakres IP: " ++ s)] := by
  unfold expand_spec
  repeat' split
  all_goals simp

lemma parse_ip_ranges_trace (rs : List String) :
    progressSnapshots (parse_ip_ranges rs).2 = [] ∧
      hostSnapshots (parse_ip_ranges rs).2 = [] ∧
      completeCount (parse_ip_ranges rs).2 = 0 := by
  rw [parse_ip_ranges_eq]
  induction rs with
  | nil => simp
  | cons r rest ih =>
    simp only [List.flatMap_cons, progressSnapshots_append, hostSnapshots_append,
      completeCount_append]
    rcases expand_spec_events r with h | h <;> rw [h] <;> simp [ih.1, ih.2.1, ih.2.2]

/-- C8: in every full session (any start arguments, any probe outcomes, any
stop schedule, any injected fault), every progress snapshot handed to the
progress callback satisfies `hosts_scanned ≤ hosts_total` and
`ports_scanned ≤ ports_total`, and successive snapshots never decrease in
`hosts_scanned`, `ports_scanned`, `hosts_found` or `open_ports_found`
(the snapshot list is pairwise ordered, which is stronger than
consecutive-pair monotonicity). -/
theorem c8_progress_bounds_and_monotone (sa rh : Bool) (o : Oracle) (st : ScannerState)
    (ranges : List String) (ports : Option (List ℕ)) (fault : Option String) :
    (∀ q ∈ progressSnapshots (scan_session sa rh o st ranges ports fault).2,
      q.hosts_scanned ≤ q.hosts_total ∧ q.ports_scanned ≤ q.ports_total) ∧
    List.Pairwise progressLE
      (progressSnapshots (scan_session sa rh o st ranges ports fault).2) := by
  unfold scan_session start_scan
  by_cases hr : st.running
  · rw [if_pos hr]
    simp only []
    exact ⟨by intro q hq; simp at hq, by simp⟩
  · rw [if_neg hr]
    simp only []
    by_cases hemp : (parse_ip_ranges ranges).1.isEmpty
    · rw [if_pos hemp]
      simp only []
      obtain ⟨hp1, _, _⟩ := parse_ip_ranges_trace ranges
      constructor
      · intro q hq
        rw [progressSnapshots_append, hp1] at hq
        simp at hq
      · rw [progressSnapshots_append, hp1]
        simp
    · rw [if_neg hemp]
      simp only []
      obtain ⟨hp1, _, _⟩ := parse_ip_ranges_trace ranges
      obtain ⟨wB, wP⟩ := scan_worker_progress st.use_simulation sa rh o
        (parse_ip_ranges ranges).1
        (match ports with
          | some ps => ps
          | none => if st.mode = ScanMode.light then common_ports else full_ports)
        fault
        { st with
          running := true
          stop_requested := false
          hosts := []
          progress :=
            { hosts_total := (parse_ip_ranges ranges).1.length
              ports_total :=
                (match ports with
                  | some ps => ps
                  | none => if st.mode = ScanMode.light then common_ports
                      else full_ports).length * (parse_ip_ranges ranges).1.length
              is_running := true } }
        rfl rfl rfl rfl rfl
      constructor
      · intro q hq
        rw [progressSnapshots_append, hp1] at hq
        simp only [List.nil_append] at hq
        exact ⟨(wB q hq).1, (wB q hq).2.1⟩
      · rw [progressSnapshots_append, hp1]
        simpa using wP

/-- C5, amended: `ports_total` is fixed once by `start_scan`, before
discovery, as `|ports| * |expanded targets|` — over all targets, not only
the alive hosts — and no later phase recomputes it: every progress snapshot
of the session carries `hosts_total = |targets|` and
`ports_total = |ports| * |targets|` (total_units, their sum, is therefore
also fixed at start). -/
theorem c5_amended_ports_total_fixed_at_start (sa rh : Bool) (o : Oracle)
    (st : ScannerState) (ranges : List String) (ports : Option (List ℕ))
    (fault : Option String) (targets : List String) (ps : List ℕ)
    (hlaunch : (start_scan st ranges ports).2.2 = some (targets, ps)) :
    ∀ q ∈ progressSnapshots (scan_session sa rh o st ranges ports fault).2,
      q.hosts_total = targets.length ∧ q.ports_total = ps.length * targets.length := by
  unfold start_scan at hlaunch
  by_cases hr : st.running
  · rw [if_pos hr] at hlaunch
    simp at hlaunch
  · rw [if_neg hr] at hlaunch
    simp only [] at hlaunch
    by_cases hemp : (parse_ip_ranges ranges).1.isEmpty
    · rw [if_pos hemp] at hlaunch
      simp at hlaunch
    · rw [if_neg hemp] at hlaunch
      simp only [Option.some.injEq, Prod.mk.injEq] at hlaunch
      obtain ⟨htg, hps⟩ := hlaunch
      subst htg
      subst hps
      unfold scan_session start_scan
      rw [if_neg hr]
      simp only []
      rw [if_neg hemp]
      simp only []
      obtain ⟨hp1, _, _⟩ := parse_ip_ranges_trace ranges
      obtain ⟨wB, _⟩ := scan_worker_progress st.use_simulation sa rh o
        (parse_ip_ranges ranges).1
        (match ports with
          | some ps0 => ps0
          | none => if st.mode = ScanMode.light then common_ports else full_ports)
        fault
        { st with
          running := true
          stop_requested := false
          hosts := []
          progress :=
            { hosts_total := (parse_ip_ranges ranges).1.length
              ports_total :=
                (match ports with
                  | some ps0 => ps0
                  | none => if st.mode = ScanMode.light then common_ports
                      else full_ports).length * (parse_ip_ranges ranges).1.length
              is_running := true } }
        rfl rfl rfl rfl rfl
      intro q hq
      rw [progressSnapshots_append, hp1] at hq
      simp only [List.nil_append] at hq
      obtain ⟨_, _, hqt, hqp⟩ := wB q hq
      exact ⟨hqt, hqp⟩

/-- First progress snapshot of the two-target, one-port session used to
instantiate the amended C5 theorem. -/
def c5WitnessSnapshot : ScanProgress :=
  { hosts_total := 2
    hosts_scanned := 1
    ports_total := 2
    ports_scanned := 0
    hosts_found := 1
    open_ports_found := 0
    current_target := "10.0.0.1"
    is_running := true
    elapsed_time := 1
    estimated_remaining := 3 }

section
set_option allowUnsafeReducibility true
attribute [local semireducible] Rat.add Rat.mul Rat.sub Rat.inv

/-- C5, witness: the amended theorem applied to a concrete launched session
over two targets with one configured port. -/
theorem c5_amended_witness :
    c5WitnessSnapshot.hosts_total = (["10.0.0.1", "10.0.0.2"] : List String).length ∧
      c5WitnessSnapshot.ports_total
        = ([80] : List ℕ).length * (["10.0.0.1", "10.0.0.2"] : List String).length :=
  c5_amended_ports_total_fixed_at_start true true oracleFirstAlive
    (mkScanner ScanMode.light 2 50 true true) ["10.0.0.1", "10.0.0.2"] (some [80]) none
    ["10.0.0.1", "10.0.0.2"] [80] (by decide) c5WitnessSnapshot (by decide)

end

lemma scan_worker_hosts (u sa rh : Bool) (o : Oracle) (targets : List String)
    (ports : List ℕ) (fault : Option String) (st : ScannerState)
    (hhosts : st.hosts = []) (hhs : st.progress.hosts_scanned = 0)
    (hps : st.progress.ports_scanned = 0) :
    (∀ kv ∈ (scan_worker u sa rh o targets ports fault st).1.hosts,
      (kv.2.open_ports ≠ [] → kv.2.is_alive = true) ∧
      (kv.2.response_time ≠ none → kv.2.is_alive = true) ∧
      kv.2.open_ports.Sublist ports) ∧
    (∀ hs ∈ hostSnapshots (scan_worker u sa rh o targets ports fault st).2,
      (hs.open_ports ≠ [] → hs.is_alive = true) ∧
      (hs.response_time ≠ none → hs.is_alive = true) ∧
      hs.open_ports.Sublist ports) := by
  unfold scan_worker
  rcases hd : discover_hosts u sa rh o targets 0 0 st with ⟨st1, evs1, t1⟩
  obtain ⟨dTab, dSnapH⟩ :=
    discover_hosts_table u sa rh o
      (fun h => (h.response_time ≠ none → h.is_alive = true) ∧ h.open_ports = [])
      (fun h hop hrt => ⟨hrt, hop⟩) targets 0 0 st
      (by rw [hhosts]; intro kv hkv; simp at hkv)
  rw [hd] at dTab dSnapH
  simp only [] at dTab dSnapH ⊢
  obtain ⟨_, _, _, dPS, _, _, _, _, _, _⟩ :=
    discover_hosts_spec u sa rh o targets 0 0 st (by rw [hhs])
  rw [hd] at dPS
  simp only [] at dPS
  have hdgoal : ∀ h ∈ hostSnapshots evs1,
      (h.open_ports ≠ [] → h.is_alive = true) ∧
      (h.response_time ≠ none → h.is_alive = true) ∧ h.open_ports.Sublist ports := by
    intro h hh
    obtain ⟨hrt, hop⟩ := dSnapH h hh
    exact ⟨fun hne => absurd hop hne, hrt, by rw [hop]; exact List.nil_sublist _⟩
  have hdtab : ∀ kv ∈ st1.hosts,
      (kv.2.open_ports ≠ [] → kv.2.is_alive = true) ∧
      (kv.2.response_time ≠ none → kv.2.is_alive = true) ∧
      kv.2.open_ports.Sublist ports := by
    intro kv hkv
    obtain ⟨hrt, hop⟩ := dTab kv hkv
    exact ⟨fun hne => absurd hop hne, hrt, by rw [hop]; exact List.nil_sublist _⟩
  have herrsnapH : ∀ err2 : Option String,
      hostSnapshots (match err2 with
        | some m => [Event.error ("Błąd podczas skanowania: " ++ m)]
        | none => ([] : List Event)) = [] := by
    intro err2; cases err2 <;> simp
  by_cases hstop : o.stop t1
  · rw [if_pos hstop]
    simp only []
    refine ⟨hdtab, ?_⟩
    intro hs hh
    rw [hostSnapshots_append, hostSnapshots_append, hostSnapshots_append] at hh
    rcases fault with _ | m <;>
      simp only [hostSnapshots_cons_error, hostSnapshots_nil, List.append_nil,
        List.nil_append, hostSnapshots_cons_complete, emit_pu_hostSnapshots] at hh <;>
      exact hdgoal hs hh
  · rw [if_neg hstop]
    try simp only []
    by_cases hempty : ((st1.hosts.filter (fun kv => kv.2.is_alive)).map (·.1)).isEmpty
        || ports.isEmpty
    · rw [if_pos hempty]
      try simp only []
      refine ⟨hdtab, ?_⟩
      intro hs hh
      rw [hostSnapshots_append, hostSnapshots_append, hostSnapshots_append] at hh
      rcases fault with _ | m <;>
        simp only [hostSnapshots_cons_error, hostSnapshots_nil, List.append_nil,
          List.nil_append, hostSnapshots_cons_complete, emit_pu_hostSnapshots] at hh <;>
        exact hdgoal hs hh
    · rw [if_neg hempty]
      rcases hsp : scan_ports u o ports
          ((st1.hosts.filter (fun kv => kv.2.is_alive)).map (·.1)) 0 (t1 + 1) st1
        with ⟨st2, evs2, t2, e2⟩
      have hkeynd : (st1.hosts.map Prod.fst).Nodup := by
        have := (discover_hosts_keys u sa rh o targets 0 0 st).1
        rw [hd] at this
        exact this (by rw [hhosts]; exact List.nodup_nil)
      have hAnd : ((st1.hosts.filter (fun kv => kv.2.is_alive)).map (·.1)).Nodup := by
        have hsub : ((st1.hosts.filter (fun kv => kv.2.is_alive)).map (·.1)).Sublist
            (st1.hosts.map Prod.fst) := (List.filter_sublist _).map _
        exact hsub.nodup hkeynd
      have halive : ∀ k ∈ (st1.hosts.filter (fun kv => kv.2.is_alive)).map (·.1),
          ∀ hh, dict_find st1.hosts k = some hh → hh.is_alive = true := by
        intro k hk hh hfindk
        rcases List.mem_map.mp hk with ⟨kv, hkv, hke⟩
        have hkvmem : kv ∈ st1.hosts := List.mem_of_mem_filter hkv
        have halv : kv.2.is_alive = true := by
          have := List.of_mem_filter hkv
          simpa using this
        have : dict_find st1.hosts kv.1 = some kv.2 := by
          refine dict_find_of_mem_nodup hkeynd ?_
          rcases kv with ⟨a, b⟩
          exact hkvmem
        rw [← hke] at hfindk
        rw [this] at hfindk
        rcases Option.some.injEq .. ▸ hfindk with rfl
        exact halv
      obtain ⟨tOut, tTab, tSnap⟩ :=
        scan_ports_table u o ports ((st1.hosts.filter (fun kv => kv.2.is_alive)).map (·.1))
          0 (t1 + 1) st1 st2 evs2 t2 e2 hsp (by rw [dPS, hps]) hAnd
      have hkeys2 := scan_ports_keys u o ports
        ((st1.hosts.filter (fun kv => kv.2.is_alive)).map (·.1)) 0 (t1 + 1) st1 st2 evs2
        t2 e2 hsp
      have hkeynd2 : (st2.hosts.map Prod.fst).Nodup := by rw [hkeys2]; exact hkeynd
      have hptab : ∀ kv ∈ st2.hosts,
          (kv.2.open_ports ≠ [] → kv.2.is_alive = true) ∧
          (kv.2.response_time ≠ none → kv.2.is_alive = true) ∧
          kv.2.open_ports.Sublist ports := by
        intro kv hkv
        have hfind2 : dict_find st2.hosts kv.1 = some kv.2 := by
          refine dict_find_of_mem_nodup hkeynd2 ?_
          rcases kv with ⟨a, b⟩
          exact hkv
        obtain ⟨hh, l, hf1, hal, hrt, hop, hsubl, hmem⟩ := tTab kv.1 kv.2 hfind2
        have hfmem : (kv.1, hh) ∈ st1.hosts := dict_find_mem hf1
        obtain ⟨_, hhrt, hhsubl⟩ := hdtab (kv.1, hh) hfmem
        have hhop : hh.open_ports = [] := (dTab (kv.1, hh) hfmem).2
        refine ⟨?_, ?_, ?_⟩
        · intro hne
          rw [hop, hhop, List.nil_append] at hne
          rw [hal]
          exact halive kv.1 (hmem hne) hh hf1
        · intro hne
          rw [hrt] at hne
          rw [hal]
          exact hhrt hne
        · rw [hop, hhop, List.nil_append]
          exact hsubl
      refine ⟨?_, ?_⟩
      · intro kv hkv
        exact hptab kv hkv
      · intro hs hh
        rw [hostSnapshots_append, hostSnapshots_append, hostSnapshots_append,
          hostSnapshots_append] at hh
        rcases fault with _ | m <;> rcases e2 with _ | m2 <;>
          simp only [hostSnapshots_cons_error, hostSnapshots_nil, List.append_nil,
            List.nil_append, hostSnapshots_cons_complete, emit_pu_hostSnapshots] at hh <;>
        · rcases List.mem_append.mp hh with hh1 | hh2
          · exact hdgoal hs hh1
          · obtain ⟨k, hhr, l, hkA, hf1, hal, hop, hsubl⟩ := tSnap hs hh2
            have hfmem : (k, hhr) ∈ st1.hosts := dict_find_mem hf1
            have hhop : hhr.open_ports = [] := (dTab (k, hhr) hfmem).2
            have halv : hhr.is_alive = true := halive k hkA hhr hf1
            refine ⟨?_, ?_, ?_⟩
            · intro _; rw [hal]; exact halv
            · intro _; rw [hal]; exact halv
            · rw [hop, hhop, List.nil_append]
              exact hsubl

lemma scan_session_hosts (sa rh : Bool) (o : Oracle) (st : ScannerState)
    (ranges : List String) (ports : Option (List ℕ)) (fault : Option String)
    (P : HostInfo → Prop)
    (hhosts : st.hosts = [])
    (hP : ∀ targets ps, (start_scan st ranges ports).2.2 = some (targets, ps) →
      ∀ h : HostInfo, (h.open_ports ≠ [] → h.is_alive = true) →
        (h.response_time ≠ none → h.is_alive = true) → h.open_ports.Sublist ps → P h) :
    (∀ kv ∈ (scan_session sa rh o st ranges ports fault).1.hosts, P kv.2) ∧
    (∀ hs ∈ hostSnapshots (scan_session sa rh o st ranges ports fault).2, P hs) := by
  unfold scan_session start_scan
  unfold start_scan at hP
  by_cases hr : st.running
  · rw [if_pos hr]
    rw [if_pos hr] at hP
    simp only []
    constructor
    · intro kv hkv
      rw [hhosts] at hkv
      simp at hkv
    · intro hs hh
      simp at hh
  · rw [if_neg hr]
    rw [if_neg hr] at hP
    simp only [] at hP ⊢
    by_cases hemp : (parse_ip_ranges ranges).1.isEmpty
    · rw [if_pos hemp]
      rw [if_pos hemp] at hP
      simp only []
      constructor
      · intro kv hkv
        simp at hkv
      · intro hs hh
        rw [hostSnapshots_append] at hh
        obtain ⟨_, hp2, _⟩ := parse_ip_ranges_trace ranges
        rw [hp2] at hh
        simp at hh
    · rw [if_neg hemp]
      rw [if_neg hemp] at hP
      simp only [] at hP ⊢
      generalize hdef : (match ports with
          | some ps0 => ps0
          | none => if st.mode = ScanMode.light then common_ports
              else full_ports) = ps1 at hP ⊢
      have hP2 := hP (parse_ip_ranges ranges).1 ps1 rfl
      obtain ⟨wTab, wSnap⟩ := scan_worker_hosts st.use_simulation sa rh o
        (parse_ip_ranges ranges).1 ps1 fault
        { st with
          running := true
          stop_requested := false
          hosts := []
          progress :=
            { hosts_total := (parse_ip_ranges ranges).1.length
              ports_total := ps1.length * (parse_ip_ranges ranges).1.length
              is_running := true } }
        rfl rfl rfl
      constructor
      · intro kv hkv
        obtain ⟨h1, h2, h3⟩ := wTab kv hkv
        exact hP2 kv.2 h1 h2 h3
      · intro hs hh
        rw [hostSnapshots_append] at hh
        obtain ⟨_, hp2, _⟩ := parse_ip_ranges_trace ranges
        rw [hp2] at hh
        rw [List.nil_append] at hh
        obtain ⟨h1, h2, h3⟩ := wSnap hs hh
        exact hP2 hs h1 h2 h3

/-- **C9.** Liveness gates port and timing data: in every full session started
on a scanner with an empty host table, every host record in the final table
and every host snapshot delivered through the host-found callback has
`open_ports` non-empty only if `is_alive` is true, and `response_time`
present only if `is_alive` is true. -/
theorem c9_open_ports_and_rt_only_when_alive (sa rh : Bool) (o : Oracle)
    (st : ScannerState) (ranges : List String) (ports : Option (List ℕ))
    (fault : Option String)
    (hhosts : st.hosts = []) :
    (∀ kv ∈ (scan_session sa rh o st ranges ports fault).1.hosts,
      (kv.2.open_ports ≠ [] → kv.2.is_alive = true) ∧
      (kv.2.response_time ≠ none → kv.2.is_alive = true)) ∧
    (∀ hs ∈ hostSnapshots (scan_session sa rh o st ranges ports fault).2,
      (hs.open_ports ≠ [] → hs.is_alive = true) ∧
      (hs.response_time ≠ none → hs.is_alive = true)) :=
  scan_session_hosts sa rh o st ranges ports fault
    (fun h => (h.open_ports ≠ [] → h.is_alive = true) ∧
      (h.response_time ≠ none → h.is_alive = true))
    hhosts
    (fun _ _ _ _ h1 h2 _ => ⟨h1, h2⟩)

/-- **C2 (amended).** Open ports are appended in probe order with no sorting
or deduplication pass; but both default port sets are strictly ascending,
and whenever the configured port list is strictly ascending, every stored
`open_ports` list and every host snapshot's `open_ports` list is strictly
ascending — hence sorted and duplicate-free. -/
theorem c2_amended_sorted_when_ports_sorted (sa rh : Bool) (o : Oracle)
    (st : ScannerState) (ranges : List String) (ports : Option (List ℕ))
    (fault : Option String) (targets : List String) (ps : List ℕ)
    (hhosts : st.hosts = [])
    (hlaunch : (start_scan st ranges ports).2.2 = some (targets, ps))
    (hasc : List.Pairwise (fun a b => a < b) ps) :
    List.Pairwise (fun a b => a < b) common_ports ∧
    List.Pairwise (fun a b => a < b) full_ports ∧
    (∀ kv ∈ (scan_session sa rh o st ranges ports fault).1.hosts,
      List.Pairwise (fun a b => a < b) kv.2.open_ports ∧ kv.2.open_ports.Nodup) ∧
    (∀ hs ∈ hostSnapshots (scan_session sa rh o st ranges ports fault).2,
      List.Pairwise (fun a b => a < b) hs.open_ports ∧ hs.open_ports.Nodup) := by
  have hcp : List.Pairwise (fun a b : ℕ => a < b) common_ports := by decide
  have hfp : List.Pairwise (fun a b : ℕ => a < b) full_ports := by
    unfold full_ports
    exact List.pairwise_lt_range' 1 1024
  have hmain := scan_session_hosts sa rh o st ranges ports fault
    (fun h => List.Pairwise (fun a b => a < b) h.open_ports ∧ h.open_ports.Nodup)
    hhosts
    (by
      intro targets2 ps2 hlaunch2 h _ _ hsub
      rw [hlaunch2] at hlaunch
      rcases Option.some.injEq .. ▸ hlaunch with heq
      rcases Prod.mk.injEq .. ▸ heq with ⟨_, hps2⟩
      have hpw : List.Pairwise (fun a b => a < b) h.open_ports :=
        List.Pairwise.sublist hsub (hps2 ▸ hasc)
      exact ⟨hpw, hpw.nodup⟩)
  exact ⟨hcp, hfp, hmain.1, hmain.2⟩

theorem c9_open_ports_witness :
    (∀ kv ∈ (scan_session true true oracleAllAlive
        (mkScanner ScanMode.light 2 50 true true)
        ["10.0.0.1", "10.0.0.2"] (some [80]) none).1.hosts,
      (kv.2.open_ports ≠ [] → kv.2.is_alive = true) ∧
      (kv.2.response_time ≠ none → kv.2.is_alive = true)) ∧
    (∀ hs ∈ hostSnapshots (scan_session true true oracleAllAlive
        (mkScanner ScanMode.light 2 50 true true)
        ["10.0.0.1", "10.0.0.2"] (some [80]) none).2,
      (hs.open_ports ≠ [] → hs.is_alive = true) ∧
      (hs.response_time ≠ none → hs.is_alive = true)) :=
  c9_open_ports_and_rt_only_when_alive true true oracleAllAlive
    (mkScanner ScanMode.light 2 50 true true)
    ["10.0.0.1", "10.0.0.2"] (some [80]) none (by decide)

theorem c2_amended_witness :
    List.Pairwise (fun a b => a < b) common_ports ∧
    List.Pairwise (fun a b => a < b) full_ports ∧
    (∀ kv ∈ (scan_session true true oracleAllAlive
        (mkScanner ScanMode.light 2 50 true true)
        ["10.0.0.1", "10.0.0.2"] (some [80, 443]) none).1.hosts,
      List.Pairwise (fun a b => a < b) kv.2.open_ports ∧ kv.2.open_ports.Nodup) ∧
    (∀ hs ∈ hostSnapshots (scan_session true true oracleAllAlive
        (mkScanner ScanMode.light 2 50 true true)
        ["10.0.0.1", "10.0.0.2"] (some [80, 443]) none).2,
      List.Pairwise (fun a b => a < b) hs.open_ports ∧ hs.open_ports.Nodup) :=
  c2_amended_sorted_when_ports_sorted true true oracleAllAlive
    (mkScanner ScanMode.light 2 50 true true)
    ["10.0.0.1", "10.0.0.2"] (some [80, 443]) none
    ["10.0.0.1", "10.0.0.2"] [80, 443] (by decide) (by decide) (by decide)

def simAgree (o1 o2 : Oracle) : Prop :=
  (∀ t, (o1.ping t).simAliveDraw = (o2.ping t).simAliveDraw) ∧
  (∀ t, (o1.ping t).simRtDraw = (o2.ping t).simRtDraw) ∧
  (∀ t, (o1.port t).simDraw = (o2.port t).simDraw) ∧
  o1.resolve = o2.resolve ∧ o1.stop = o2.stop ∧ o1.now = o2.now ∧
  o1.elapsedAt = o2.elapsedAt

lemma discover_probe_sim (sa1 sa2 : Bool) (r1 r2 : ProbeRaw)
    (h1 : r1.simAliveDraw = r2.simAliveDraw) (h2 : r1.simRtDraw = r2.simRtDraw) :
    discover_probe true sa1 r1 = discover_probe true sa2 r2 := by
  unfold discover_probe
  simp only [if_true]
  rw [h1, h2]

lemma discover_step_sim (sa1 sa2 rh : Bool) (o1 o2 : Oracle) (hag : simAgree o1 o2)
    (ip : String) (i t : ℕ) (st : ScannerState) :
    discover_step true sa1 rh o1 ip i t st = discover_step true sa2 rh o2 ip i t st := by
  obtain ⟨ha, hr, hp, hres, hstop, hnow, hel⟩ := hag
  unfold discover_step
  rw [hnow, hel, hres, discover_probe_sim sa1 sa2 (o1.ping (t + 1)) (o2.ping (t + 1))
    (ha (t + 1)) (hr (t + 1))]

lemma discover_hosts_sim (sa1 sa2 rh : Bool) (o1 o2 : Oracle) (hag : simAgree o1 o2) :
    ∀ (ts : List String) (i t : ℕ) (st : ScannerState),
      discover_hosts true sa1 rh o1 ts i t st = discover_hosts true sa2 rh o2 ts i t st := by
  intro ts
  induction ts with
  | nil => intro i t st; rfl
  | cons ip rest ih =>
    intro i t st
    unfold discover_hosts
    rw [hag.2.2.2.2.1]
    by_cases hstop : o2.stop t
    · rw [if_pos hstop, if_pos hstop]
    · rw [if_neg hstop, if_neg hstop]
      rw [discover_step_sim sa1 sa2 rh o1 o2 hag ip i (t + 1) st]
      rcases discover_step true sa2 rh o2 ip i (t + 1) st with ⟨st1, evs1, t1⟩
      simp only []
      rw [ih (i + 1) t1 st1]

lemma port_step_sim (o1 o2 : Oracle) (hag : simAgree o1 o2) (t port : ℕ)
    (h : HostInfo) (p : ScanProgress) :
    port_step true (o1.port t) port h p = port_step true (o2.port t) port h p := by
  unfold port_step port_is_open
  simp only [if_true]
  rw [hag.2.2.1 t]

lemma scan_ports_host_sim (o1 o2 : Oracle) (hag : simAgree o1 o2) :
    ∀ (ports : List ℕ) (scanned t : ℕ) (h : HostInfo) (p : ScanProgress),
      scan_ports_host true o1 ports scanned t h p
        = scan_ports_host true o2 ports scanned t h p := by
  intro ports
  induction ports with
  | nil => intro scanned t h p; rfl
  | cons port rest ih =>
    intro scanned t h p
    unfold scan_ports_host
    rw [hag.2.2.2.2.1]
    by_cases hstop : o2.stop t
    · rw [if_pos hstop, if_pos hstop]
    · rw [if_neg hstop, if_neg hstop]
      simp only []
      rw [port_step_sim o1 o2 hag (t + 1) port h { p with ports_scanned := scanned + 1 },
        hag.2.2.2.2.2.2]
      rw [ih]

lemma scan_ports_sim (o1 o2 : Oracle) (hag : simAgree o1 o2) (ports : List ℕ) :
    ∀ (tgts : List String) (scanned t : ℕ) (st : ScannerState),
      scan_ports true o1 ports tgts scanned t st
        = scan_ports true o2 ports tgts scanned t st := by
  intro tgts
  induction tgts with
  | nil => intro scanned t st; rfl
  | cons tgt rest ih =>
    intro scanned t st
    unfold scan_ports
    rw [hag.2.2.2.2.1]
    by_cases hstop : o2.stop t
    · rw [if_pos hstop, if_pos hstop]
    · rw [if_neg hstop, if_neg hstop]
      simp only []
      cases dict_find st.hosts tgt with
      | none => rfl
      | some h =>
        simp only []
        rw [scan_ports_host_sim o1 o2 hag ports scanned (t + 1) h
          { st.progress with current_target := tgt ++ ":ports" }]
        rcases scan_ports_host true o2 ports scanned (t + 1) h
          { st.progress with current_target := tgt ++ ":ports" }
          with ⟨h1, p1, evs1, scanned1, t1⟩
        rw [ih]

lemma scan_worker_sim (sa1 sa2 rh : Bool) (o1 o2 : Oracle) (hag : simAgree o1 o2)
    (targets : List String) (ports : List ℕ) (fault : Option String)
    (st : ScannerState) :
    scan_worker true sa1 rh o1 targets ports fault st
      = scan_worker true sa2 rh o2 targets ports fault st := by
  unfold scan_worker
  rw [discover_hosts_sim sa1 sa2 rh o1 o2 hag targets 0 0 st]
  rcases discover_hosts true sa2 rh o2 targets 0 0 st with ⟨st1, evs1, t1⟩
  simp only []
  rw [hag.2.2.2.2.1]
  by_cases hstop : o2.stop t1
  · rw [if_pos hstop, if_pos hstop]
    simp only []
    rw [hag.2.2.2.2.2.2]
  · rw [if_neg hstop, if_neg hstop]
    by_cases hemp : ((st1.hosts.filter (fun kv => kv.2.is_alive)).map (·.1)).isEmpty
        || ports.isEmpty
    · rw [if_pos hemp, if_pos hemp]
      simp only []
      rw [hag.2.2.2.2.2.2]
    · rw [if_neg hemp, if_neg hemp]
      rw [scan_ports_sim o1 o2 hag ports
        ((st1.hosts.filter (fun kv => kv.2.is_alive)).map (·.1)) 0 (t1 + 1) st1]
      rcases scan_ports true o2 ports
          ((st1.hosts.filter (fun kv => kv.2.is_alive)).map (·.1)) 0 (t1 + 1) st1
        with ⟨st2, evs2, t2, e2⟩
      simp only []
      rw [hag.2.2.2.2.2.2]

lemma scan_session_sim (sa1 sa2 rh : Bool) (o1 o2 : Oracle) (hag : simAgree o1 o2)
    (st : ScannerState) (ranges : List String) (ports : Option (List ℕ))
    (fault : Option String) (hsim : st.use_simulation = true) :
    scan_session sa1 rh o1 st ranges ports fault
      = scan_session sa2 rh o2 st ranges ports fault := by
  unfold scan_session start_scan
  by_cases hr : st.running
  · rw [if_pos hr]
  · rw [if_neg hr]
    simp only []
    by_cases hemp : (parse_ip_ranges ranges).1.isEmpty
    · rw [if_pos hemp]
    · rw [if_neg hemp]
      simp only [hsim]
      rw [scan_worker_sim sa1 sa2 rh o1 o2 hag]

/-- **C10.** A missing scapy import silently forces simulation: the
constructor sets `use_simulation` to true whenever scapy is unavailable, for
every configuration including `use_simulation := false`; and once
`use_simulation` is true the whole session — final state and full event
trace — depends only on the pseudo-random simulation draws, the stop
schedule, the clock and the resolver: two environments whose real
scapy/socket probe outcomes differ arbitrarily (and even different scapy
availability) produce identical sessions, so no real probing is observable. -/
theorem c10_missing_scapy_forces_simulated_session (mode : ScanMode) (timeout : ℚ)
    (mt : ℕ) (u : Bool) (sa1 sa2 rh : Bool) (o1 o2 : Oracle) (st : ScannerState)
    (ranges : List String) (ports : Option (List ℕ)) (fault : Option String)
    (hsim : st.use_simulation = true) (hag : simAgree o1 o2) :
    (mkScanner mode timeout mt u false).use_simulation = true ∧
    scan_session sa1 rh o1 st ranges ports fault
      = scan_session sa2 rh o2 st ranges ports fault :=
  ⟨by unfold mkScanner; cases u <;> rfl,
    scan_session_sim sa1 sa2 rh o1 o2 hag st ranges ports fault hsim⟩

def oracleNoisy : Oracle :=
  { oracleAllAlive with
    ping := fun t => { oracleAllAlive.ping t with
      scapy := .resp 7
      sock := .conn 0 (t + 1) }
    port := fun t => { oracleAllAlive.port t with sock := .conn 1 (t + 2) } }

theorem c10_missing_scapy_witness :
    (mkScanner ScanMode.light 2 50 false false).use_simulation = true ∧
    scan_session true true oracleAllAlive
        (mkScanner ScanMode.light 2 50 false false) ["10.0.0.1"] (some [80]) none
      = scan_session false true oracleNoisy
        (mkScanner ScanMode.light 2 50 false false) ["10.0.0.1"] (some [80]) none :=
  c10_missing_scapy_forces_simulated_session ScanMode.light 2 50 false true false true
    oracleAllAlive oracleNoisy (mkScanner ScanMode.light 2 50 false false)
    ["10.0.0.1"] (some [80]) none rfl
    ⟨fun _ => rfl, fun _ => rfl, fun _ => rfl, rfl, rfl, rfl, rfl⟩
